import Mathlib

/-!
# Verification of the chronicle record store

Shallow embedding of the chronicle repository (Rust) in Lean 4, together with
theorems settling the frozen claims about it.

Conventions used throughout:

* Byte strings (Rust Vec<u8>) are List UInt8.
* The serde_json library is modelled by the Json inductive below together with
  an executable serializer (serde_json::to_vec, compact output) and parser
  (serde_json::from_slice).  Arrays and objects are represented by the mutual
  types JsonArr and JsonObj so that recursion over values is structural.  Two
  documented simplifications: numeric literals are modelled as integers (float
  formatting is out of scope for every claim), and object fields are kept in
  textual order rather than re-sorted into a BTreeMap; no claim exercises
  objects.
* The state chain, which the Rust code stores as a linked list of file offsets
  (prev_update_offset) inside the record log, is materialised as a Lean list of
  updates, oldest first.  Walking the chain backwards corresponds to walking
  the reversed list.  The serialisation of the StateUpdateRecord envelope
  (which the Rust code round-trips through serde_json) is modelled away.
-/

set_option maxHeartbeats 1000000

namespace Chronicle

mutual

/-- Model of serde_json::Value.  Numbers are modelled as integers and object
fields are kept in textual order (see the module comment). -/
inductive Json where
  | null : Json
  | bool (b : Bool) : Json
  | num (n : Int) : Json
  | str (s : List UInt8) : Json
  | arr (elems : JsonArr) : Json
  | obj (fields : JsonObj) : Json

/-- A list of JSON array elements. -/
inductive JsonArr where
  | nil : JsonArr
  | cons (head : Json) (tail : JsonArr) : JsonArr

/-- A list of JSON object fields. -/
inductive JsonObj where
  | nil : JsonObj
  | cons (key : List UInt8) (value : Json) (tail : JsonObj) : JsonObj

end

/-- Convert an element list to an ordinary Lean list. -/
def JsonArr.toList : JsonArr → List Json
  | .nil => []
  | .cons h t => h :: t.toList

/-- Build an element list from an ordinary Lean list. -/
def JsonArr.ofList : List Json → JsonArr
  | [] => .nil
  | h :: t => .cons h (JsonArr.ofList t)

theorem JsonArr.toList_ofList (l : List Json) : (JsonArr.ofList l).toList = l := by
  induction l with
  | nil => rfl
  | cons h t ih => simp [JsonArr.ofList, JsonArr.toList, ih]

theorem JsonArr.ofList_toList : ∀ (a : JsonArr), JsonArr.ofList a.toList = a
  | .nil => rfl
  | .cons h t => by simp [JsonArr.toList, JsonArr.ofList, JsonArr.ofList_toList t]

/-- JSON array value built from a Lean list of elements. -/
def jarr (l : List Json) : Json := .arr (JsonArr.ofList l)

/-- ASCII bytes of a Lean string (payload literals in examples are ASCII). -/
def strB (s : String) : List UInt8 :=
  s.toList.map (fun c => UInt8.ofNat c.toNat)

/-- Decimal digit bytes of a positive number, least significant first.
Fuel-indexed so the definition is structural and kernel-reducible. -/
def natDecRev : Nat → Nat → List UInt8
  | 0, _ => []
  | fuel + 1, n => if n = 0 then [] else UInt8.ofNat (48 + n % 10) :: natDecRev fuel (n / 10)

/-- Decimal digits of a natural number, most significant first. -/
def natDecimal (n : Nat) : List UInt8 :=
  if n = 0 then [48] else (natDecRev n n).reverse

/-- Hexadecimal digit byte (lowercase), for control-character escapes. -/
def hexDigit (n : Nat) : UInt8 :=
  if n < 10 then UInt8.ofNat (48 + n) else UInt8.ofNat (87 + n)

/-- Escape of a single string byte, as serde_json prints it. -/
def escByte (b : UInt8) : List UInt8 :=
  if b = 34 then [92, 34]
  else if b = 92 then [92, 92]
  else if b = 8 then [92, 98]
  else if b = 9 then [92, 116]
  else if b = 10 then [92, 110]
  else if b = 12 then [92, 102]
  else if b = 13 then [92, 114]
  else if b.toNat < 32 then [92, 117, 48, 48, hexDigit (b.toNat / 16), hexDigit (b.toNat % 16)]
  else [b]

/-- Serialized form of a JSON string body (without the surrounding quotes). -/
def serStr (s : List UInt8) : List UInt8 :=
  s.flatMap escByte

mutual

/-- serde_json::to_vec — compact serialization. -/
def jsonSerialize : Json → List UInt8
  | .null => [110, 117, 108, 108]
  | .bool true => [116, 114, 117, 101]
  | .bool false => [102, 97, 108, 115, 101]
  | .num n => if n < 0 then 45 :: natDecimal n.natAbs else natDecimal n.natAbs
  | .str s => 34 :: serStr s ++ [34]
  | .arr .nil => [91, 93]
  | .arr (.cons h t) => 91 :: (jsonSerialize h ++ serArrItems t) ++ [93]
  | .obj .nil => [123, 125]
  | .obj (.cons k v t) =>
      123 :: ((34 :: serStr k ++ [34]) ++ 58 :: jsonSerialize v ++ serObjItems t) ++ [125]

/-- Serialization of the remaining array elements, each preceded by a comma. -/
def serArrItems : JsonArr → List UInt8
  | .nil => []
  | .cons h t => 44 :: jsonSerialize h ++ serArrItems t

/-- Serialization of the remaining object fields, each preceded by a comma. -/
def serObjItems : JsonObj → List UInt8
  | .nil => []
  | .cons k v t => 44 :: (34 :: serStr k ++ [34]) ++ 58 :: jsonSerialize v ++ serObjItems t

end

/-- Whitespace bytes accepted by the parser. -/
def isWs (b : UInt8) : Bool :=
  b = 32 || b = 9 || b = 10 || b = 13

/-- Skip leading whitespace. -/
def skipWs : List UInt8 → List UInt8
  | [] => []
  | b :: rest => if isWs b then skipWs rest else b :: rest

/-- Decimal digit test. -/
def isDigitB (b : UInt8) : Bool :=
  48 ≤ b.toNat && b.toNat ≤ 57

/-- Hex digit value of a byte, if it is one. -/
def hexVal (b : UInt8) : Option Nat :=
  if 48 ≤ b.toNat ∧ b.toNat ≤ 57 then some (b.toNat - 48)
  else if 97 ≤ b.toNat ∧ b.toNat ≤ 102 then some (b.toNat - 87)
  else if 65 ≤ b.toNat ∧ b.toNat ≤ 70 then some (b.toNat - 55)
  else none

/-- Parse a run of decimal digits (at least one), most significant first. -/
def parseDigits : List UInt8 → Nat → Option (Nat × List UInt8)
  | [], _ => none
  | b :: rest, acc =>
      if isDigitB b then
        match parseDigits rest (acc * 10 + (b.toNat - 48)) with
        | some r => some r
        | none => some (acc * 10 + (b.toNat - 48), rest)
      else none

/-- Unescaped byte for a single-character escape code. -/
def unescape (e : UInt8) : Option UInt8 :=
  if e = 34 then some 34
  else if e = 92 then some 92
  else if e = 47 then some 47
  else if e = 98 then some 8
  else if e = 116 then some 9
  else if e = 110 then some 10
  else if e = 102 then some 12
  else if e = 114 then some 13
  else none

/-- Parse the body of a JSON string after the opening quote, up to and
including the closing quote.  Fuel-indexed (one unit per source character) so
the definition is structural and kernel-reducible; callers supply the input
length as fuel, which always suffices. -/
def parseStrBody : Nat → List UInt8 → Option (List UInt8 × List UInt8)
  | 0, _ => none
  | _ + 1, [] => none
  | fuel + 1, b :: rest =>
      if b = 34 then some ([], rest)
      else if b = 92 then
        match rest with
        | [] => none
        | e :: rest2 =>
            if e = 117 then
              match rest2 with
              | h1 :: h2 :: h3 :: h4 :: rest3 =>
                  match hexVal h1, hexVal h2, hexVal h3, hexVal h4 with
                  | some d1, some d2, some d3, some d4 =>
                      let n := ((d1 * 16 + d2) * 16 + d3) * 16 + d4
                      if n < 256 then
                        match parseStrBody fuel rest3 with
                        | some (s, r2) => some (UInt8.ofNat n :: s, r2)
                        | none => none
                      else none
                  | _, _, _, _ => none
              | _ => none
            else
              match unescape e with
              | some c =>
                  match parseStrBody fuel rest2 with
                  | some (s, r2) => some (c :: s, r2)
                  | none => none
              | none => none
      else
        match parseStrBody fuel rest with
        | some (s, r2) => some (b :: s, r2)
        | none => none

mutual

/-- serde_json::from_slice — recursive descent parser.  Fuel-indexed to make
termination trivial; jsonDeserialize supplies enough fuel. -/
def parseValue : Nat → List UInt8 → Option (Json × List UInt8)
  | 0, _ => none
  | _ + 1, [] => none
  | fuel + 1, b :: rest =>
      if b = 110 then
        match rest with
        | 117 :: 108 :: 108 :: r => some (.null, r)
        | _ => none
      else if b = 116 then
        match rest with
        | 114 :: 117 :: 101 :: r => some (.bool true, r)
        | _ => none
      else if b = 102 then
        match rest with
        | 97 :: 108 :: 115 :: 101 :: r => some (.bool false, r)
        | _ => none
      else if b = 34 then
        match parseStrBody rest.length rest with
        | some (s, r) => some (.str s, r)
        | none => none
      else if b = 45 then
        match parseDigits rest 0 with
        | some (n, r) => some (.num (-(n : Int)), r)
        | none => none
      else if isDigitB b then
        match parseDigits (b :: rest) 0 with
        | some (n, r) => some (.num (n : Int), r)
        | none => none
      else if b = 91 then
        match skipWs rest with
        | [] => none
        | c :: r =>
            if c = 93 then some (.arr .nil, r)
            else match parseArrItems fuel (c :: r) with
                 | some (xs, r2) => some (jarr xs, r2)
                 | none => none
      else if b = 123 then
        match skipWs rest with
        | [] => none
        | c :: r =>
            if c = 125 then some (.obj .nil, r)
            else match parseObjItems fuel (c :: r) with
                 | some (fs, r2) => some (.obj fs, r2)
                 | none => none
      else none

/-- Parse one or more comma-separated array elements, then the closing
bracket. -/
def parseArrItems : Nat → List UInt8 → Option (List Json × List UInt8)
  | 0, _ => none
  | fuel + 1, input =>
      match parseValue fuel input with
      | some (v, r) =>
          match skipWs r with
          | [] => none
          | c :: r2 =>
              if c = 44 then
                match parseArrItems fuel (skipWs r2) with
                | some (xs, r3) => some (v :: xs, r3)
                | none => none
              else if c = 93 then some ([v], r2)
              else none
      | none => none

/-- Parse one or more comma-separated object fields, then the closing
brace. -/
def parseObjItems : Nat → List UInt8 → Option (JsonObj × List UInt8)
  | 0, _ => none
  | fuel + 1, input =>
      match input with
      | [] => none
      | b0 :: r0 =>
          if b0 = 34 then
            match parseStrBody r0.length r0 with
            | some (k, r1) =>
                match skipWs r1 with
                | [] => none
                | c1 :: r2 =>
                    if c1 = 58 then
                      match parseValue fuel (skipWs r2) with
                      | some (v, r3) =>
                          match skipWs r3 with
                          | [] => none
                          | c2 :: r4 =>
                              if c2 = 44 then
                                match parseObjItems fuel (skipWs r4) with
                                | some (fs, r5) => some (.cons k v fs, r5)
                                | none => none
                              else if c2 = 125 then some (.cons k v .nil, r4)
                              else none
                      | none => none
                    else none
            | none => none
          else none

end

mutual

/-- Fuel sufficient to parse the serialization of a value. -/
def jsonFuel : Json → Nat
  | .null => 1
  | .bool _ => 1
  | .num _ => 1
  | .str _ => 1
  | .arr xs => 1 + jsonFuelArr xs
  | .obj fs => 1 + jsonFuelObj fs

/-- Fuel for array elements. -/
def jsonFuelArr : JsonArr → Nat
  | .nil => 0
  | .cons h t => 1 + jsonFuel h + jsonFuelArr t

/-- Fuel for object fields. -/
def jsonFuelObj : JsonObj → Nat
  | .nil => 0
  | .cons _ v t => 1 + jsonFuel v + jsonFuelObj t

end

/-- serde_json::from_slice of a complete buffer: whole input must be one JSON
value (surrounding whitespace allowed). -/
def jsonDeserialize (bs : List UInt8) : Option Json :=
  match parseValue (bs.length + 1) (skipWs bs) with
  | some (v, rest) => if skipWs rest = [] then some v else none
  | none => none

/-! ## Round-trip: parsing a serialized value recovers it -/

/-- The continuation after a number must not begin with a digit (inside
arrays and objects it begins with a comma or a closing bracket). -/
def noLeadingDigit : List UInt8 → Prop
  | [] => True
  | b :: _ => isDigitB b = false

theorem skipWs_cons_of_not_ws {b : UInt8} (h : isWs b = false) (l : List UInt8) :
    skipWs (b :: l) = b :: l := by
  simp [skipWs, h]

theorem parseDigits_none {l : List UInt8} (h : noLeadingDigit l) (acc : Nat) :
    parseDigits l acc = none := by
  cases l with
  | nil => rfl
  | cons b t => simp [parseDigits, noLeadingDigit] at h ⊢; simp [h]

/-- A byte list all of whose members are decimal digit bytes. -/
def allDigits (l : List UInt8) : Prop := ∀ b ∈ l, isDigitB b = true

theorem parseDigits_run (ds : List UInt8) :
    ∀ (acc : Nat) (rest : List UInt8), ds ≠ [] → allDigits ds → noLeadingDigit rest →
    parseDigits (ds ++ rest) acc =
      some (ds.foldl (fun a b => a * 10 + (b.toNat - 48)) acc, rest) := by
  induction ds with
  | nil => intro _ _ h; exact absurd rfl h
  | cons b t ih =>
    intro acc rest _ hall hrest
    have hb : isDigitB b = true := hall b (by simp)
    rw [List.cons_append, parseDigits, if_pos hb]
    cases t with
    | nil =>
      rw [List.nil_append, parseDigits_none hrest]
      simp [List.foldl]
    | cons b2 t2 =>
      have ht : allDigits (b2 :: t2) := fun x hx => hall x (by simp [hx])
      rw [ih (acc * 10 + (b.toNat - 48)) rest (by simp) ht hrest]
      simp [List.foldl]

theorem natDecRev_eq_digits : ∀ (fuel n : Nat), n ≤ fuel →
    natDecRev fuel n = (Nat.digits 10 n).map (fun d => UInt8.ofNat (48 + d)) := by
  intro fuel
  induction fuel with
  | zero => intro n hn; interval_cases n; simp [natDecRev]
  | succ f ih =>
    intro n hn
    by_cases h0 : n = 0
    · simp [natDecRev, h0]
    · have hlt : n / 10 ≤ f := by
        have := Nat.div_lt_self (Nat.pos_of_ne_zero h0) (by norm_num : 1 < 10)
        omega
      rw [natDecRev, if_neg h0, ih (n / 10) hlt,
        Nat.digits_def' (by norm_num : 1 < 10) (Nat.pos_of_ne_zero h0)]
      simp

theorem foldl_digits_reverse (L : List Nat) : ∀ (acc : Nat),
    L.reverse.foldl (fun a d => a * 10 + d) acc = acc * 10 ^ L.length + Nat.ofDigits 10 L := by
  induction L with
  | nil => intro acc; simp
  | cons d T ih =>
    intro acc
    simp only [List.reverse_cons, List.foldl_append, List.foldl_cons, List.foldl_nil, ih,
      Nat.ofDigits_cons, List.length_cons]
    ring

theorem toNat_ofNat_small {n : Nat} (h : n < 256) : (UInt8.ofNat n).toNat = n := by
  show n % 256 = n
  exact Nat.mod_eq_of_lt h

theorem natDecimal_all_digits (n : Nat) : allDigits (natDecimal n) := by
  intro b hb
  unfold natDecimal at hb
  by_cases h0 : n = 0
  · simp [h0] at hb
    subst hb; decide
  · rw [if_neg h0, natDecRev_eq_digits n n le_rfl, List.mem_reverse, List.mem_map] at hb
    obtain ⟨d, hd, rfl⟩ := hb
    have hd10 : d < 10 := Nat.digits_lt_base (by norm_num) hd
    have htn : (UInt8.ofNat (48 + d)).toNat = 48 + d := toNat_ofNat_small (by omega)
    simp only [isDigitB, Bool.and_eq_true, decide_eq_true_eq, htn]
    omega

theorem natDecimal_ne_nil (n : Nat) : natDecimal n ≠ [] := by
  unfold natDecimal
  by_cases h0 : n = 0
  · simp [h0]
  · rw [if_neg h0, natDecRev_eq_digits n n le_rfl]
    simp [Nat.digits_ne_nil_iff_ne_zero, h0]

theorem natDecimal_foldl (n : Nat) :
    (natDecimal n).foldl (fun a b => a * 10 + (b.toNat - 48)) 0 = n := by
  unfold natDecimal
  by_cases h0 : n = 0
  · simp [h0, List.foldl]
    decide
  · rw [if_neg h0, natDecRev_eq_digits n n le_rfl, ← List.map_reverse, List.foldl_map]
    have hsame :
        (Nat.digits 10 n).reverse.foldl
          (fun (a : Nat) (d : Nat) => a * 10 + ((UInt8.ofNat (48 + d)).toNat - 48)) 0 =
        (Nat.digits 10 n).reverse.foldl (fun (a : Nat) (d : Nat) => a * 10 + d) 0 := by
      apply List.foldl_ext
      intro a d hd
      rw [List.mem_reverse] at hd
      have hd10 : d < 10 := Nat.digits_lt_base (by norm_num) hd
      rw [toNat_ofNat_small (by omega)]
      omega
    rw [hsame, foldl_digits_reverse]
    simp [Nat.ofDigits_digits]

theorem parseDigits_natDecimal (n : Nat) {rest : List UInt8} (h : noLeadingDigit rest) :
    parseDigits (natDecimal n ++ rest) 0 = some (n, rest) := by
  rw [parseDigits_run (natDecimal n) 0 rest (natDecimal_ne_nil n) (natDecimal_all_digits n) h,
    natDecimal_foldl]

theorem hexVal_hexDigit {n : Nat} (h : n < 16) : hexVal (hexDigit n) = some n := by
  unfold hexDigit hexVal
  by_cases h10 : n < 10
  · rw [if_pos h10, toNat_ofNat_small (by omega)]
    rw [if_pos (by omega)]
    exact congrArg some (by omega)
  · rw [if_neg h10, toNat_ofNat_small (by omega)]
    rw [if_neg (by omega), if_pos (by omega)]
    exact congrArg some (by omega)

theorem ofNat_toNat_self (b : UInt8) : UInt8.ofNat b.toNat = b := by
  apply UInt8.ext
  exact toNat_ofNat_small b.toNat_lt

theorem parseStrBody_ser (s : List UInt8) : ∀ (fuel : Nat) (rest : List UInt8),
    s.length < fuel → parseStrBody fuel (serStr s ++ 34 :: rest) = some (s, rest) := by
  induction s with
  | nil =>
    intro fuel rest hf
    obtain ⟨f, rfl⟩ : ∃ f, fuel = f + 1 := ⟨fuel - 1, by omega⟩
    simp [serStr, parseStrBody]
  | cons b s' ih =>
    intro fuel rest hf
    obtain ⟨f, rfl⟩ : ∃ f, fuel = f + 1 := ⟨fuel - 1, by omega⟩
    have hf' : s'.length < f := by simp at hf; omega
    have hser : serStr (b :: s') ++ 34 :: rest = escByte b ++ (serStr s' ++ 34 :: rest) := by
      simp [serStr]
    rw [hser]
    unfold escByte
    split_ifs with h1 h2 h3 h4 h5 h6 h7 h8
    · subst h1; simp [parseStrBody, unescape, ih f rest hf']
    · subst h2; simp [parseStrBody, unescape, ih f rest hf']
    · subst h3; simp [parseStrBody, unescape, ih f rest hf']
    · subst h4; simp [parseStrBody, unescape, ih f rest hf']
    · subst h5; simp [parseStrBody, unescape, ih f rest hf']
    · subst h6; simp [parseStrBody, unescape, ih f rest hf']
    · subst h7; simp [parseStrBody, unescape, ih f rest hf']
    · -- control byte escaped as backslash-u00XX
      have hhi : b.toNat / 16 < 16 := by omega
      have hlo : b.toNat % 16 < 16 := by omega
      simp only [List.cons_append, List.nil_append]
      rw [parseStrBody, if_neg (by decide : ¬(92 : UInt8) = 34), if_pos rfl, if_pos rfl,
        hexVal_hexDigit hhi, hexVal_hexDigit hlo,
        show hexVal 48 = some 0 from by decide]
      have hval : (((0 : Nat) * 16 + 0) * 16 + b.toNat / 16) * 16 + b.toNat % 16 = b.toNat := by
        omega
      simp only [hval, ih f rest hf', if_pos b.toNat_lt, ofNat_toNat_self]
    · -- plain byte
      simp only [List.cons_append, List.nil_append]
      rw [parseStrBody.eq_def]
      simp only [if_neg h1, if_neg h2]
      rw [ih f rest hf']

theorem escByte_length_pos (b : UInt8) : 0 < (escByte b).length := by
  unfold escByte
  split_ifs <;> simp

theorem serStr_length_ge (s : List UInt8) : s.length ≤ (serStr s).length := by
  induction s with
  | nil => simp [serStr]
  | cons b t ih =>
    have : serStr (b :: t) = escByte b ++ serStr t := by simp [serStr]
    rw [this, List.length_append, List.length_cons]
    have := escByte_length_pos b
    omega

/-- A first byte after which skipWs is a no-op and which is not one of the
bytes the parser treats as a terminator inside arrays and objects. -/
def goodHead (b : UInt8) : Prop :=
  isWs b = false ∧ ¬b = 93 ∧ ¬b = 125 ∧ ¬b = 44

theorem digit_head_good {b : UInt8} (h1 : 48 ≤ b.toNat) (h2 : b.toNat ≤ 57) : goodHead b := by
  refine ⟨?_, ?_, ?_, ?_⟩
  · simp only [isWs, Bool.or_eq_false_iff, decide_eq_false_iff_not]
    refine ⟨⟨⟨?_, ?_⟩, ?_⟩, ?_⟩ <;> intro h <;> exact absurd (h ▸ h1) (by decide)
  · intro h; exact absurd (h ▸ h2) (by decide)
  · intro h; exact absurd (h ▸ h2) (by decide)
  · intro h; exact absurd (h ▸ h1) (by decide)

theorem natDecimal_head (n : Nat) :
    ∃ b t, natDecimal n = b :: t ∧ 48 ≤ b.toNat ∧ b.toNat ≤ 57 := by
  rcases hne : natDecimal n with _ | ⟨b, t⟩
  · exact absurd hne (natDecimal_ne_nil n)
  · have hb : isDigitB b = true := natDecimal_all_digits n b (by rw [hne]; simp)
    simp only [isDigitB, Bool.and_eq_true, decide_eq_true_eq] at hb
    exact ⟨b, t, rfl, hb.1, hb.2⟩

theorem ser_head (v : Json) :
    ∃ b t, jsonSerialize v = b :: t ∧ goodHead b := by
  cases v with
  | null => exact ⟨110, _, rfl, by decide, by decide, by decide, by decide⟩
  | bool b =>
    cases b with
    | false => exact ⟨102, _, rfl, by decide, by decide, by decide, by decide⟩
    | true => exact ⟨116, _, rfl, by decide, by decide, by decide, by decide⟩
  | num n =>
    by_cases hneg : n < 0
    · refine ⟨45, natDecimal n.natAbs, ?_, by decide, by decide, by decide, by decide⟩
      simp [jsonSerialize, hneg]
    · obtain ⟨b, t, hbt, h1, h2⟩ := natDecimal_head n.natAbs
      refine ⟨b, t, ?_, digit_head_good h1 h2⟩
      simp [jsonSerialize, hneg, hbt]
  | str s => exact ⟨34, _, rfl, by decide, by decide, by decide, by decide⟩
  | arr xs =>
    cases xs with
    | nil => exact ⟨91, _, rfl, by decide, by decide, by decide, by decide⟩
    | cons h t => exact ⟨91, _, rfl, by decide, by decide, by decide, by decide⟩
  | obj fs =>
    cases fs with
    | nil => exact ⟨123, _, rfl, by decide, by decide, by decide, by decide⟩
    | cons k w t => exact ⟨123, _, rfl, by decide, by decide, by decide, by decide⟩

theorem skipWs_ser (v : Json) (x : List UInt8) :
    skipWs (jsonSerialize v ++ x) = jsonSerialize v ++ x := by
  obtain ⟨b, t, hbt, hg⟩ := ser_head v
  rw [hbt, List.cons_append, skipWs_cons_of_not_ws hg.1]

theorem digit_not_keyword {b : UInt8} (h1 : 48 ≤ b.toNat) (h2 : b.toNat ≤ 57) :
    ¬b = 110 ∧ ¬b = 116 ∧ ¬b = 102 ∧ ¬b = 34 ∧ ¬b = 45 ∧ isDigitB b = true := by
  refine ⟨?_, ?_, ?_, ?_, ?_, ?_⟩
  · intro h; exact absurd (h ▸ h2) (by decide)
  · intro h; exact absurd (h ▸ h2) (by decide)
  · intro h; exact absurd (h ▸ h2) (by decide)
  · intro h; exact absurd (h ▸ h1) (by decide)
  · intro h; exact absurd (h ▸ h1) (by decide)
  · simp only [isDigitB, Bool.and_eq_true, decide_eq_true_eq]
    exact ⟨h1, h2⟩

theorem noLeadingDigit_ser_arr (t : JsonArr) (rest : List UInt8) (h : noLeadingDigit rest) :
    noLeadingDigit (serArrItems t ++ 93 :: rest) := by
  cases t with
  | nil => simp only [serArrItems, List.nil_append]; exact (by decide : isDigitB 93 = false)
  | cons h2 t2 => exact (by decide : isDigitB 44 = false)

theorem noLeadingDigit_ser_obj (t : JsonObj) (rest : List UInt8) (h : noLeadingDigit rest) :
    noLeadingDigit (serObjItems t ++ 125 :: rest) := by
  cases t with
  | nil => simp only [serObjItems, List.nil_append]; exact (by decide : isDigitB 125 = false)
  | cons k v t2 => exact (by decide : isDigitB 44 = false)

theorem pv_null (f : Nat) (r : List UInt8) :
    parseValue (f + 1) (110 :: 117 :: 108 :: 108 :: r) = some (.null, r) := rfl

theorem pv_true (f : Nat) (r : List UInt8) :
    parseValue (f + 1) (116 :: 114 :: 117 :: 101 :: r) = some (.bool true, r) := rfl

theorem pv_false (f : Nat) (r : List UInt8) :
    parseValue (f + 1) (102 :: 97 :: 108 :: 115 :: 101 :: r) = some (.bool false, r) := rfl

theorem pv_str (f : Nat) (r : List UInt8) : parseValue (f + 1) (34 :: r) =
    match parseStrBody r.length r with
    | some (s, r') => some (.str s, r')
    | none => none := rfl

theorem pv_neg (f : Nat) (r : List UInt8) : parseValue (f + 1) (45 :: r) =
    (match parseDigits r 0 with
     | some (n, r2) => some (.num (-(n : Int)), r2)
     | none => none) := rfl

theorem pv_arr (f : Nat) (r : List UInt8) : parseValue (f + 1) (91 :: r) =
    (match skipWs r with
     | [] => none
     | c :: r2 =>
         if c = 93 then some (.arr .nil, r2)
         else match parseArrItems f (c :: r2) with
              | some (xs, r3) => some (jarr xs, r3)
              | none => none) := rfl

theorem pv_obj (f : Nat) (r : List UInt8) : parseValue (f + 1) (123 :: r) =
    (match skipWs r with
     | [] => none
     | c :: r2 =>
         if c = 125 then some (.obj .nil, r2)
         else match parseObjItems f (c :: r2) with
              | some (fs, r3) => some (.obj fs, r3)
              | none => none) := rfl

theorem pv_digit {b : UInt8} (h1 : 48 ≤ b.toNat) (h2 : b.toNat ≤ 57) (f : Nat)
    (r : List UInt8) : parseValue (f + 1) (b :: r) =
    (match parseDigits (b :: r) 0 with
     | some (n, r2) => some (.num (n : Int), r2)
     | none => none) := by
  obtain ⟨k1, k2, k3, k4, k5, k6⟩ := digit_not_keyword h1 h2
  rw [parseValue.eq_def]
  simp only [if_neg k1, if_neg k2, if_neg k3, if_neg k4, if_neg k5, k6, if_true]

theorem pai_step (f : Nat) (r : List UInt8) : parseArrItems (f + 1) r =
    (match parseValue f r with
     | some (v, r1) =>
         match skipWs r1 with
         | [] => none
         | c :: r2 =>
             if c = 44 then
               match parseArrItems f (skipWs r2) with
               | some (xs, r3) => some (v :: xs, r3)
               | none => none
             else if c = 93 then some ([v], r2)
             else none
     | none => none) := rfl

theorem poi_step (f : Nat) (r0 : List UInt8) : parseObjItems (f + 1) (34 :: r0) =
    (match parseStrBody r0.length r0 with
     | some (k, r1) =>
         match skipWs r1 with
         | [] => none
         | c1 :: r2 =>
             if c1 = 58 then
               match parseValue f (skipWs r2) with
               | some (v, r3) =>
                   match skipWs r3 with
                   | [] => none
                   | c2 :: r4 =>
                       if c2 = 44 then
                         match parseObjItems f (skipWs r4) with
                         | some (fs, r5) => some (.cons k v fs, r5)
                         | none => none
                       else if c2 = 125 then some (.cons k v .nil, r4)
                       else none
               | none => none
             else none
     | none => none) := rfl

theorem parse_ser_all : ∀ (fuel : Nat),
    (∀ (v : Json) (rest : List UInt8), jsonFuel v ≤ fuel → noLeadingDigit rest →
      parseValue fuel (jsonSerialize v ++ rest) = some (v, rest)) ∧
    (∀ (h : Json) (t : JsonArr) (rest : List UInt8),
      jsonFuelArr (.cons h t) ≤ fuel → noLeadingDigit rest →
      parseArrItems fuel (jsonSerialize h ++ (serArrItems t ++ 93 :: rest)) =
        some (h :: t.toList, rest)) ∧
    (∀ (k : List UInt8) (v : Json) (t : JsonObj) (rest : List UInt8),
      jsonFuelObj (.cons k v t) ≤ fuel → noLeadingDigit rest →
      parseObjItems fuel
          (34 :: (serStr k ++ 34 :: 58 :: (jsonSerialize v ++ (serObjItems t ++ 125 :: rest)))) =
        some (.cons k v t, rest)) := by
  intro fuel
  induction fuel with
  | zero =>
    refine ⟨?_, ?_, ?_⟩
    · intro v rest hfv; cases v <;> simp [jsonFuel] at hfv
    · intro h t rest hfv; simp [jsonFuelArr] at hfv
    · intro k v t rest hfv; simp [jsonFuelObj] at hfv
  | succ f ih =>
    obtain ⟨ihP, ihQ, ihR⟩ := ih
    refine ⟨?_, ?_, ?_⟩
    · -- parseValue on a serialized value
      intro v rest hfv hrest
      cases v with
      | null => simpa [jsonSerialize] using pv_null f rest
      | bool b =>
        cases b with
        | true => simpa [jsonSerialize] using pv_true f rest
        | false => simpa [jsonSerialize] using pv_false f rest
      | num n =>
        by_cases hneg : n < 0
        · have habs : ((n.natAbs : Int)) = -n := by omega
          simp only [jsonSerialize, if_pos hneg, List.cons_append]
          rw [pv_neg, parseDigits_natDecimal n.natAbs hrest]
          simp [habs]
        · have habs : ((n.natAbs : Int)) = n := by omega
          obtain ⟨d, ds, hds, hd1, hd2⟩ := natDecimal_head n.natAbs
          simp only [jsonSerialize, if_neg hneg, hds, List.cons_append]
          rw [pv_digit hd1 hd2, show d :: (ds ++ rest) = (d :: ds) ++ rest from rfl, ← hds,
            parseDigits_natDecimal n.natAbs hrest]
          simp [habs]
      | str s =>
        have hlen : s.length < (serStr s ++ 34 :: rest).length := by
          rw [List.length_append, List.length_cons]
          have := serStr_length_ge s
          omega
        simp only [jsonSerialize, List.cons_append, List.append_assoc, List.cons_append,
          List.nil_append]
        rw [pv_str, parseStrBody_ser s _ rest hlen]
      | arr xs =>
        cases xs with
        | nil =>
          simp only [jsonSerialize, List.cons_append]
          rw [pv_arr, skipWs_cons_of_not_ws (by decide)]
          simp
        | cons h t =>
          have hfq : jsonFuelArr (.cons h t) ≤ f := by
            simp only [jsonFuel, jsonFuelArr] at hfv ⊢; omega
          obtain ⟨b, bt, hbt, hg⟩ := ser_head h
          have hexp : jsonSerialize (Json.arr (.cons h t)) ++ rest =
              91 :: (jsonSerialize h ++ (serArrItems t ++ 93 :: rest)) := by
            simp [jsonSerialize]
          rw [hexp, pv_arr, skipWs_ser h _, hbt, List.cons_append]
          dsimp only
          rw [if_neg hg.2.1, ← List.cons_append, ← hbt, ihQ h t rest hfq hrest]
          simp [jarr, JsonArr.ofList, JsonArr.ofList_toList]
      | obj fs =>
        cases fs with
        | nil =>
          simp only [jsonSerialize, List.cons_append]
          rw [pv_obj, skipWs_cons_of_not_ws (by decide)]
          simp
        | cons k v t =>
          have hfr : jsonFuelObj (.cons k v t) ≤ f := by
            simp only [jsonFuel, jsonFuelObj] at hfv ⊢; omega
          have hexp : jsonSerialize (Json.obj (.cons k v t)) ++ rest =
              123 :: 34 :: (serStr k ++ 34 :: 58 ::
                (jsonSerialize v ++ (serObjItems t ++ 125 :: rest))) := by
            simp [jsonSerialize]
          rw [hexp, pv_obj, skipWs_cons_of_not_ws (by decide : isWs 34 = false)]
          dsimp only
          rw [if_neg (by decide : ¬(34 : UInt8) = 125), ihR k v t rest hfr hrest]
    · -- parseArrItems on serialized elements
      intro h t rest hfv hrest
      have hfh : jsonFuel h ≤ f := by simp only [jsonFuelArr] at hfv; omega
      have hnl : noLeadingDigit (serArrItems t ++ 93 :: rest) :=
        noLeadingDigit_ser_arr t rest hrest
      rw [pai_step, ihP h _ hfh hnl]
      dsimp only
      cases t with
      | nil =>
        simp only [serArrItems, List.nil_append]
        rw [skipWs_cons_of_not_ws (by decide : isWs 93 = false)]
        dsimp only
        rw [if_neg (by decide : ¬(93 : UInt8) = 44), if_pos (rfl : (93 : UInt8) = 93)]
        simp [JsonArr.toList]
      | cons h2 t2 =>
        have hfq2 : jsonFuelArr (.cons h2 t2) ≤ f := by
          simp only [jsonFuelArr] at hfv ⊢; omega
        simp only [serArrItems, List.cons_append, List.append_assoc]
        rw [skipWs_cons_of_not_ws (by decide : isWs 44 = false)]
        dsimp only
        rw [if_pos (rfl : (44 : UInt8) = 44), skipWs_ser h2 _, ihQ h2 t2 rest hfq2 hrest]
        simp [JsonArr.toList]
    · -- parseObjItems on serialized fields
      intro k v t rest hfv hrest
      have hfvv : jsonFuel v ≤ f := by simp only [jsonFuelObj] at hfv; omega
      have hnl : noLeadingDigit (serObjItems t ++ 125 :: rest) :=
        noLeadingDigit_ser_obj t rest hrest
      have hklen : k.length < (serStr k ++ 34 :: 58 ::
          (jsonSerialize v ++ (serObjItems t ++ 125 :: rest))).length := by
        rw [List.length_append, List.length_cons]
        have := serStr_length_ge k
        omega
      rw [poi_step, parseStrBody_ser k _ _ hklen]
      dsimp only
      rw [skipWs_cons_of_not_ws (by decide : isWs 58 = false)]
      dsimp only
      rw [if_pos (rfl : (58 : UInt8) = 58), skipWs_ser v _, ihP v _ hfvv hnl]
      dsimp only
      cases t with
      | nil =>
        simp only [serObjItems, List.nil_append]
        rw [skipWs_cons_of_not_ws (by decide : isWs 125 = false)]
        dsimp only
        rw [if_neg (by decide : ¬(125 : UInt8) = 44), if_pos (rfl : (125 : UInt8) = 125)]
      | cons k2 v2 t2 =>
        have hfr2 : jsonFuelObj (.cons k2 v2 t2) ≤ f := by
          simp only [jsonFuelObj] at hfv ⊢; omega
        simp only [serObjItems, List.cons_append, List.append_assoc]
        rw [skipWs_cons_of_not_ws (by decide : isWs 44 = false)]
        dsimp only
        rw [if_pos (rfl : (44 : UInt8) = 44),
          skipWs_cons_of_not_ws (by decide : isWs 34 = false)]
        have hrec := ihR k2 v2 t2 rest hfr2 hrest
        simp only [List.cons_append, List.append_assoc, List.nil_append] at hrec ⊢
        rw [hrec]

mutual

theorem jsonFuel_le_ser : ∀ (v : Json), jsonFuel v ≤ (jsonSerialize v).length
  | .null => by simp [jsonFuel, jsonSerialize]
  | .bool b => by cases b <;> simp [jsonFuel, jsonSerialize]
  | .num n => by
    have h1 := natDecimal_ne_nil n.natAbs
    have h2 : 0 < (natDecimal n.natAbs).length := List.length_pos.mpr h1
    by_cases hneg : n < 0 <;> simp [jsonFuel, jsonSerialize, hneg] <;> omega
  | .str s => by simp [jsonFuel, jsonSerialize]
  | .arr .nil => by simp [jsonFuel, jsonFuelArr, jsonSerialize]
  | .arr (.cons h t) => by
    have ih1 := jsonFuel_le_ser h
    have ih2 := jsonFuelArr_le_ser t
    simp only [jsonFuel, jsonFuelArr, jsonSerialize, List.length_cons, List.length_append]
    omega
  | .obj .nil => by simp [jsonFuel, jsonFuelObj, jsonSerialize]
  | .obj (.cons k v t) => by
    have ih1 := jsonFuel_le_ser v
    have ih2 := jsonFuelObj_le_ser t
    simp only [jsonFuel, jsonFuelObj, jsonSerialize, List.length_cons, List.length_append]
    omega

theorem jsonFuelArr_le_ser : ∀ (t : JsonArr), jsonFuelArr t ≤ (serArrItems t).length
  | .nil => by simp [jsonFuelArr, serArrItems]
  | .cons h t => by
    have ih1 := jsonFuel_le_ser h
    have ih2 := jsonFuelArr_le_ser t
    simp only [jsonFuelArr, serArrItems, List.length_cons, List.length_append]
    omega

theorem jsonFuelObj_le_ser : ∀ (t : JsonObj), jsonFuelObj t ≤ (serObjItems t).length
  | .nil => by simp [jsonFuelObj, serObjItems]
  | .cons k v t => by
    have ih1 := jsonFuel_le_ser v
    have ih2 := jsonFuelObj_le_ser t
    simp only [jsonFuelObj, serObjItems, List.length_cons, List.length_append]
    omega

end

/-- Round-trip: deserializing a serialized value recovers it.  This is the
model-level counterpart of serde_json from_slice composed with to_vec. -/
theorem jsonDeserialize_serialize (v : Json) :
    jsonDeserialize (jsonSerialize v) = some v := by
  unfold jsonDeserialize
  have hskip : skipWs (jsonSerialize v) = jsonSerialize v := by
    simpa using skipWs_ser v []
  have hparse := (parse_ser_all ((jsonSerialize v).length + 1)).1 v []
    (le_trans (jsonFuel_le_ser v) (by omega)) trivial
  simp only [List.append_nil] at hparse
  rw [hskip, hparse]
  simp [skipWs]

/-! ## Errors and state operations (src/error.rs, src/types.rs) -/

/-- StoreError (src/error.rs).  Message strings carried by the Rust variants
are elided; no claim depends on them. -/
inductive StoreError where
  | io : StoreError
  | recordNotFound : StoreError
  | branchNotFound : StoreError
  | blobNotFound : StoreError
  | stateNotRegistered : StoreError
  | stateExists : StoreError
  | branchExists : StoreError
  | invalidSequence : StoreError
  | serialization : StoreError
  | deserialization : StoreError
  | corruption : StoreError
  | strategyMismatch : StoreError
  | locked : StoreError
  | notInitialized : StoreError
  | invalidFormat : StoreError
  | checksumMismatch (expected got : Nat) : StoreError
  | hashMismatch : StoreError
  | transaction : StoreError
  | invalidOperation : StoreError
  | subscriptionDropped : StoreError
deriving Repr, DecidableEq

/-- StateOperation (src/types.rs).  The redact range bound named end in Rust
is named stop here (end is a Lean keyword); old_hash is kept as raw bytes. -/
inductive StateOperation where
  | set (value : List UInt8) : StateOperation
  | delta (oldHash : List UInt8) (newValue : List UInt8) : StateOperation
  | append (item : List UInt8) : StateOperation
  | redact (start stop : Nat) : StateOperation
  | edit (index : Nat) (newValue : List UInt8) : StateOperation
  | snapshot (value : List UInt8) : StateOperation
  | deltaSnapshot (value : List UInt8) : StateOperation
  | field (name : List UInt8) (operation : StateOperation) : StateOperation
deriving Repr, DecidableEq

/-- serde_json::from_slice::<Vec<Value>> — the whole buffer must be a JSON
array. -/
def decodeArray (bs : List UInt8) : Except StoreError (List Json) :=
  match jsonDeserialize bs with
  | some (.arr l) => .ok l.toList
  | some _ => .error .deserialization
  | none => .error .deserialization

/-- serde_json::from_slice::<Value>. -/
def decodeValue (bs : List UInt8) : Except StoreError Json :=
  match jsonDeserialize bs with
  | some v => .ok v
  | none => .error .deserialization

/-- serde_json::to_vec of an array of items. -/
def encArr (l : List Json) : List UInt8 := jsonSerialize (jarr l)

/-- Current state decoded as an array, with the empty state standing for the
empty array, exactly as in apply_operation (src/state/operations.rs). -/
def stateArray (state : List UInt8) : Except StoreError (List Json) :=
  if state.isEmpty then .ok [] else decodeArray state

/-- Object field lookup (serde_json Map::get). -/
def objGet (name : List UInt8) : JsonObj → Option Json
  | .nil => none
  | .cons k v t => if k = name then some v else objGet name t

/-- Object field insert-or-replace (serde_json Map::insert).  Field order is
kept textual rather than re-sorted; see the module comment. -/
def objInsert (name : List UInt8) (value : Json) : JsonObj → JsonObj
  | .nil => .cons name value .nil
  | .cons k v t => if k = name then .cons k value t else .cons k v (objInsert name value t)

/-! ## apply_operation (src/state/operations.rs) -/

/-- apply_operation (src/state/operations.rs lines 9-128), translated
case by case. -/
def applyOperation (state : List UInt8) (operation : StateOperation) :
    Except StoreError (List UInt8) :=
  match operation with
  | .set value => .ok value
  | .snapshot value => .ok value
  | .deltaSnapshot deltaItems => do
      let arr ← stateArray state
      let deltaArr ← decodeArray deltaItems
      .ok (encArr (arr ++ deltaArr))
  | .delta _ newValue => .ok newValue
  | .append item => do
      let arr ← stateArray state
      let itemValue ← decodeValue item
      .ok (encArr (arr ++ [itemValue]))
  | .redact start stop => do
      let arr ← stateArray state
      let s := min start arr.length
      let e := min stop arr.length
      if s < e then .ok (encArr (arr.take s ++ arr.drop e))
      else .ok (encArr arr)
  | .edit index newValue => do
      let arr ← stateArray state
      if index ≥ arr.length then .error .corruption
      else do
        let newItem ← decodeValue newValue
        .ok (encArr (arr.set index newItem))
  | .field name operation => do
      let obj ← (if state.isEmpty then .ok .nil else
        match jsonDeserialize state with
        | some (.obj o) => .ok o
        | some _ => .error .deserialization
        | none => .error .deserialization)
      let fieldState := match objGet name obj with
        | some v => jsonSerialize v
        | none => []
      let newFieldState ← applyOperation fieldState operation
      let newFieldValue ← decodeValue newFieldState
      .ok (jsonSerialize (.obj (objInsert name newFieldValue obj)))

/-- Fold of apply_operation over a list of operations. -/
def foldOps (state : List UInt8) (ops : List StateOperation) :
    Except StoreError (List UInt8) :=
  ops.foldlM applyOperation state

/-! ## The state chain and its reconstruction

The chain of updates for one (branch, state) pair is the linked list the Rust
code threads through the log with prev_update_offset, materialised as a list
of updates, oldest first.  The serde round-trip of the StateUpdateRecord
envelope is modelled away (it is a plain struct serialisation). -/

/-- A state update on the chain: the per-branch sequence of the carrying
record and the operation (types.rs StateUpdateRecord, with the chain pointer
replaced by list structure). -/
structure StateUpdate where
  sequence : Nat
  operation : StateOperation
deriving Repr, DecidableEq

/-- Backward walk over the reversed chain collecting the operations to apply:
stop at a full Snapshot (inclusive); a DeltaSnapshot is collected and
suppresses collection of earlier non-snapshot operations.  This is the walk of
Store::get_state_at (src/store.rs lines 386-420) with an unbounded target
sequence, StateItemIterator::prepare (lines 1068-1091), and, per the spec
section 4.5.3, of StateManager reconstruction (src/state/manager.rs is not in
the provided sources). -/
def collectBack : List StateUpdate → Bool → List StateOperation
  | [], _ => []
  | u :: rest, hit =>
      match u.operation with
      | .snapshot v => [.snapshot v]
      | .deltaSnapshot v => .deltaSnapshot v :: collectBack rest true
      | op => if hit then collectBack rest hit else op :: collectBack rest hit

/-- get_state reconstruction for one chain.  Modelled from the spec (section
4.5.3): StateManager::get_state lives in src/state/manager.rs, which is not in
the provided sources; the walk is identical to the present Store::get_state_at
with an unbounded sequence.  Returns none exactly when the chain is empty (no
head). -/
def getStateChain (chain : List StateUpdate) : Except StoreError (Option (List UInt8)) :=
  match chain with
  | [] => .ok none
  | u :: rest => do
      let st ← foldOps [] (collectBack ((u :: rest).reverse) false).reverse
      .ok (some st)

/-- Backward walk of Store::get_state_at (src/store.rs lines 373-435) over the
reversed chain: updates with sequence above the target are skipped (their
chain link still followed), found_any records whether any update at or below
the target exists.  Returns the collected operations in walk order plus the
found_any flag. -/
def collectAtBack : List StateUpdate → Nat → Bool → List StateOperation × Bool
  | [], _, _ => ([], false)
  | u :: rest, s, hit =>
      if u.sequence > s then collectAtBack rest s hit
      else
        match u.operation with
        | .snapshot v => ([.snapshot v], true)
        | .deltaSnapshot v => (.deltaSnapshot v :: (collectAtBack rest s true).1, true)
        | op =>
            if hit then ((collectAtBack rest s hit).1, true)
            else (op :: (collectAtBack rest s hit).1, true)

/-- Store::get_state_at on a chain (src/store.rs lines 373-435). -/
def getStateAtChain (chain : List StateUpdate) (atSequence : Nat) :
    Except StoreError (Option (List UInt8)) :=
  match chain with
  | [] => .ok none
  | u :: rest =>
      let walk := collectAtBack ((u :: rest).reverse) atSequence false
      if walk.2 then do
        let st ← foldOps [] walk.1.reverse
        .ok (some st)
      else .ok none

/-! ## Chain reconstruction lemmas -/

/-- Is the operation a DeltaSnapshot? -/
def isDeltaSnap : StateOperation → Bool
  | .deltaSnapshot _ => true
  | _ => false

/-- Is the operation a full Snapshot? -/
def isSnap : StateOperation → Bool
  | .snapshot _ => true
  | _ => false

theorem exbind_ok {alpha beta : Type} (a : alpha) (f : alpha → Except StoreError beta) :
    (Except.ok a : Except StoreError alpha).bind f = f a := rfl

theorem exbind_error {alpha beta : Type} (e : StoreError)
    (f : alpha → Except StoreError beta) :
    (Except.error e : Except StoreError alpha).bind f = .error e := rfl

theorem foldOps_append (l1 l2 : List StateOperation) (a : List UInt8) :
    foldOps a (l1 ++ l2) = (foldOps a l1).bind (fun m => foldOps m l2) := by
  induction l1 generalizing a with
  | nil => rfl
  | cons op t ih =>
    simp only [foldOps, List.cons_append, List.foldlM_cons]
    cases applyOperation a op with
    | error e => rfl
    | ok m => exact ih m

theorem applyOperation_snapshot (a v : List UInt8) :
    applyOperation a (.snapshot v) = .ok v := rfl

theorem getStateChain_eq_fold :
    ∀ (chain : List StateUpdate), chain ≠ [] →
    (∀ u ∈ chain, isDeltaSnap u.operation = false) →
    ∀ (v : List UInt8), foldOps [] (chain.map (fun u => u.operation)) = .ok v →
    getStateChain chain = .ok (some v) := by
  -- work on the reversed chain (the walk order)
  suffices h : ∀ (rev : List StateUpdate),
      (∀ u ∈ rev, isDeltaSnap u.operation = false) →
      ∀ (v : List UInt8), foldOps [] ((rev.map (fun u => u.operation)).reverse) = .ok v →
      foldOps [] (collectBack rev false).reverse = .ok v by
    intro chain hne hnds v hfold
    have hrev : (chain.reverse.map (fun u => u.operation)).reverse =
        chain.map (fun u => u.operation) := by
      simp
    have hmain := h chain.reverse (fun u hu => hnds u (List.mem_reverse.mp hu)) v
      (by rw [hrev]; exact hfold)
    obtain ⟨u, rest, rfl⟩ : ∃ u rest, chain = u :: rest := by
      cases chain with
      | nil => exact absurd rfl hne
      | cons a b => exact ⟨a, b, rfl⟩
    simp only [getStateChain]
    rw [hmain]
    rfl
  intro rev
  induction rev with
  | nil =>
    intro _ v hfold
    simpa [collectBack] using hfold
  | cons u rest ih =>
    intro hnds v hfold
    have hndsr : ∀ w ∈ rest, isDeltaSnap w.operation = false :=
      fun w hw => hnds w (by simp [hw])
    have hndu : isDeltaSnap u.operation = false := hnds u (by simp)
    rw [List.map_cons, List.reverse_cons, foldOps_append] at hfold
    rcases hm : foldOps [] ((rest.map (fun u => u.operation)).reverse) with e | m
    · rw [hm, exbind_error] at hfold
      exact absurd hfold (by simp)
    · rw [hm] at hfold
      rw [exbind_ok] at hfold
      have happ : applyOperation m u.operation = .ok v := by
        simp only [foldOps, List.foldlM] at hfold
        cases hh : applyOperation m u.operation with
        | error e => rw [hh] at hfold; exact absurd hfold (by simp)
        | ok w => rw [hh] at hfold; simp at hfold; rw [hfold]
      cases hop : u.operation with
      | snapshot w =>
        have hv : v = w := by
          rw [hop] at happ
          simpa [applyOperation] using happ.symm
        subst hv
        simp [collectBack, hop, foldOps, List.foldlM, applyOperation]
      | deltaSnapshot w => rw [hop] at hndu; simp [isDeltaSnap] at hndu
      | set w =>
        rw [show collectBack (u :: rest) false = u.operation :: collectBack rest false by
          rw [collectBack, hop]; rfl, List.reverse_cons, foldOps_append, ih hndsr m hm, exbind_ok]
        simp only [foldOps, List.foldlM, happ]
        cases hh : applyOperation m u.operation with
        | error e => rw [hh] at happ; exact absurd happ (by simp)
        | ok w => rw [hh] at happ; simp at happ; simp [happ]
      | delta oh w =>
        rw [show collectBack (u :: rest) false = u.operation :: collectBack rest false by
          rw [collectBack, hop]; rfl, List.reverse_cons, foldOps_append, ih hndsr m hm, exbind_ok]
        simp only [foldOps, List.foldlM, happ]
        cases hh : applyOperation m u.operation with
        | error e => rw [hh] at happ; exact absurd happ (by simp)
        | ok w => rw [hh] at happ; simp at happ; simp [happ]
      | append w =>
        rw [show collectBack (u :: rest) false = u.operation :: collectBack rest false by
          rw [collectBack, hop]; rfl, List.reverse_cons, foldOps_append, ih hndsr m hm, exbind_ok]
        simp only [foldOps, List.foldlM, happ]
        cases hh : applyOperation m u.operation with
        | error e => rw [hh] at happ; exact absurd happ (by simp)
        | ok w => rw [hh] at happ; simp at happ; simp [happ]
      | redact a b =>
        rw [show collectBack (u :: rest) false = u.operation :: collectBack rest false by
          rw [collectBack, hop]; rfl, List.reverse_cons, foldOps_append, ih hndsr m hm, exbind_ok]
        simp only [foldOps, List.foldlM, happ]
        cases hh : applyOperation m u.operation with
        | error e => rw [hh] at happ; exact absurd happ (by simp)
        | ok w => rw [hh] at happ; simp at happ; simp [happ]
      | edit i w =>
        rw [show collectBack (u :: rest) false = u.operation :: collectBack rest false by
          rw [collectBack, hop]; rfl, List.reverse_cons, foldOps_append, ih hndsr m hm, exbind_ok]
        simp only [foldOps, List.foldlM, happ]
        cases hh : applyOperation m u.operation with
        | error e => rw [hh] at happ; exact absurd happ (by simp)
        | ok w => rw [hh] at happ; simp at happ; simp [happ]
      | field nm op2 =>
        rw [show collectBack (u :: rest) false = u.operation :: collectBack rest false by
          rw [collectBack, hop]; rfl, List.reverse_cons, foldOps_append, ih hndsr m hm, exbind_ok]
        simp only [foldOps, List.foldlM, happ]
        cases hh : applyOperation m u.operation with
        | error e => rw [hh] at happ; exact absurd happ (by simp)
        | ok w => rw [hh] at happ; simp at happ; simp [happ]

theorem collectAtBack_filter (s : Nat) :
    ∀ (l : List StateUpdate) (hit : Bool),
    collectAtBack l s hit =
      (collectBack (l.filter (fun u => u.sequence ≤ s)) hit,
       l.any (fun u => u.sequence ≤ s)) := by
  intro l
  induction l with
  | nil => intro hit; rfl
  | cons u rest ih =>
    obtain ⟨sq, op⟩ := u
    intro hit
    by_cases hle : sq ≤ s
    · have hgt : ¬sq > s := by omega
      rw [collectAtBack, if_neg hgt]
      dsimp only
      have hfc : List.filter (fun u => decide (u.sequence ≤ s))
          (⟨sq, op⟩ :: rest) = ⟨sq, op⟩ :: List.filter (fun u => decide (u.sequence ≤ s)) rest := by
        simp [List.filter_cons, hle]
      have hac : List.any (⟨sq, op⟩ :: rest) (fun u => decide (u.sequence ≤ s)) = true := by
        simp [List.any_cons, hle]
      rw [hfc, hac]
      cases op with
      | snapshot w => rfl
      | deltaSnapshot w =>
        rw [show collectBack (⟨sq, .deltaSnapshot w⟩ :: List.filter
            (fun u => decide (u.sequence ≤ s)) rest) hit =
          .deltaSnapshot w :: collectBack (List.filter
            (fun u => decide (u.sequence ≤ s)) rest) true from rfl]
        rw [show collectAtBack rest s true = _ from ih true]
      | set w =>
        cases hit with
        | true => rw [show collectAtBack rest s true = _ from ih true]; rfl
        | false => rw [show collectAtBack rest s false = _ from ih false]; rfl
      | delta oh w =>
        cases hit with
        | true => rw [show collectAtBack rest s true = _ from ih true]; rfl
        | false => rw [show collectAtBack rest s false = _ from ih false]; rfl
      | append w =>
        cases hit with
        | true => rw [show collectAtBack rest s true = _ from ih true]; rfl
        | false => rw [show collectAtBack rest s false = _ from ih false]; rfl
      | redact a b =>
        cases hit with
        | true => rw [show collectAtBack rest s true = _ from ih true]; rfl
        | false => rw [show collectAtBack rest s false = _ from ih false]; rfl
      | edit i w =>
        cases hit with
        | true => rw [show collectAtBack rest s true = _ from ih true]; rfl
        | false => rw [show collectAtBack rest s false = _ from ih false]; rfl
      | field nm op2 =>
        cases hit with
        | true => rw [show collectAtBack rest s true = _ from ih true]; rfl
        | false => rw [show collectAtBack rest s false = _ from ih false]; rfl
    · have hgt : sq > s := by omega
      rw [collectAtBack, if_pos hgt, ih hit]
      have hfc : List.filter (fun u => decide (u.sequence ≤ s)) (⟨sq, op⟩ :: rest) =
          List.filter (fun u => decide (u.sequence ≤ s)) rest := by
        simp [List.filter_cons, hle]
      have hac : List.any (⟨sq, op⟩ :: rest) (fun u => decide (u.sequence ≤ s)) =
          List.any rest (fun u => decide (u.sequence ≤ s)) := by
        simp [List.any_cons, hle]
      rw [hfc, hac]

theorem getStateAtChain_filter (chain : List StateUpdate) (s : Nat) :
    getStateAtChain chain s = getStateChain (chain.filter (fun u => u.sequence ≤ s)) := by
  cases chain with
  | nil => rfl
  | cons u rest =>
    rw [getStateAtChain]
    rw [collectAtBack_filter s ((u :: rest).reverse) false]
    rw [List.filter_reverse (fun x => decide (x.sequence ≤ s)) (u :: rest), List.any_reverse]
    by_cases hany : (u :: rest).any (fun w => w.sequence ≤ s)
    · obtain ⟨w, ws, hws⟩ : ∃ w ws,
          (u :: rest).filter (fun x => x.sequence ≤ s) = w :: ws := by
        rcases hf : (u :: rest).filter (fun x => x.sequence ≤ s) with _ | ⟨w, ws⟩
        · rw [List.filter_eq_nil_iff] at hf
          rw [List.any_eq_true] at hany
          obtain ⟨w, hw, hws⟩ := hany
          exact absurd hws (by simpa using hf w hw)
        · exact ⟨w, ws, hf⟩
      rw [hws]
      simp only [hany, if_true]
      rw [getStateChain]
    · have hanyf : ((u :: rest).any fun w => decide (w.sequence ≤ s)) = false := by
        simpa using hany
      have hfil : (u :: rest).filter (fun w => w.sequence ≤ s) = [] := by
        rw [List.filter_eq_nil_iff]
        intro w hw hws
        exact hany (List.any_eq_true.mpr ⟨w, hw, by simpa using hws⟩)
      rw [hfil, hanyf]
      simp [getStateChain]

/-! ## The store write path for one AppendLog state on one branch

Store::update_state / update_state_internal (src/store.rs lines 265-356) with
the snapshot policy of the spec (sections 4.5.1, 4.5.2; StateManager lives in
src/state/manager.rs, which is not in the provided sources, so its counter
updates and thresholds are modelled from the spec).  The record log, index and
branch-head bookkeeping that do not affect these claims are projected away;
what remains is the chain of state updates, the chain head counters and the
branch head sequence. -/

/-- StateStrategy::AppendLog thresholds (src/types.rs). -/
structure AppendLogCfg where
  deltaSnapshotEvery : Nat
  fullSnapshotEvery : Nat

/-- StateChainHead counters.  Modelled from the spec (section 4.5.1):
src/state/manager.rs is absent.  The last-offset fields are replaced by the
opsSinceDeltaSnapshot counter, which models the "at least one new op since the
last delta" test of section 4.5.2. -/
structure StateChainHead where
  itemCount : Nat
  opsSinceFullSnapshot : Nat
  deltaSnapshotsSinceFull : Nat
  opsSinceDeltaSnapshot : Nat
deriving Repr, DecidableEq

/-- Freshly created chain head ("look up or create", spec 4.5.1). -/
def emptyHead : StateChainHead := ⟨0, 0, 0, 0⟩

/-- Payload length as a JSON array, if it decodes as one. -/
def arrayLen (v : List UInt8) : Option Nat :=
  match jsonDeserialize v with
  | some (.arr l) => some l.toList.length
  | _ => none

/-- Counter maintenance per operation kind.  Modelled from the spec (section
4.5.1); Delta and Field are not listed there and are treated as generic
operations. -/
def recordUpdate (h : StateChainHead) (op : StateOperation) : StateChainHead :=
  match op with
  | .append _ =>
      { h with itemCount := h.itemCount + 1,
               opsSinceFullSnapshot := h.opsSinceFullSnapshot + 1,
               opsSinceDeltaSnapshot := h.opsSinceDeltaSnapshot + 1 }
  | .redact s e =>
      { h with itemCount := h.itemCount - (min e h.itemCount - min s h.itemCount),
               opsSinceFullSnapshot := h.opsSinceFullSnapshot + 1,
               opsSinceDeltaSnapshot := h.opsSinceDeltaSnapshot + 1 }
  | .edit _ _ =>
      { h with opsSinceFullSnapshot := h.opsSinceFullSnapshot + 1,
               opsSinceDeltaSnapshot := h.opsSinceDeltaSnapshot + 1 }
  | .set v =>
      { itemCount := (arrayLen v).getD h.itemCount,
        opsSinceFullSnapshot := 0, deltaSnapshotsSinceFull := 0,
        opsSinceDeltaSnapshot := 0 }
  | .snapshot v =>
      { itemCount := (arrayLen v).getD h.itemCount,
        opsSinceFullSnapshot := 0, deltaSnapshotsSinceFull := 0,
        opsSinceDeltaSnapshot := 0 }
  | .deltaSnapshot v =>
      { h with itemCount := h.itemCount + (arrayLen v).getD 0,
               deltaSnapshotsSinceFull := h.deltaSnapshotsSinceFull + 1,
               opsSinceDeltaSnapshot := 0 }
  | .delta _ _ =>
      { h with opsSinceFullSnapshot := h.opsSinceFullSnapshot + 1,
               opsSinceDeltaSnapshot := h.opsSinceDeltaSnapshot + 1 }
  | .field _ _ =>
      { h with opsSinceFullSnapshot := h.opsSinceFullSnapshot + 1,
               opsSinceDeltaSnapshot := h.opsSinceDeltaSnapshot + 1 }

/-- Which snapshot an AppendLog state needs (spec 4.5.2). -/
inductive SnapshotNeeded where
  | full : SnapshotNeeded
  | delta : SnapshotNeeded
deriving Repr, DecidableEq

/-- snapshot_needed (spec 4.5.2), evaluated after an update is recorded. -/
def snapshotNeeded (cfg : AppendLogCfg) : Option StateChainHead → Option SnapshotNeeded
  | none => none
  | some h =>
      if h.deltaSnapshotsSinceFull ≥ cfg.fullSnapshotEvery then some .full
      else if h.opsSinceFullSnapshot ≥
          cfg.deltaSnapshotEvery * (h.deltaSnapshotsSinceFull + 1) ∧
          h.opsSinceDeltaSnapshot > 0 then some .delta
      else none

/-- Store state for one registered AppendLog state on one branch. -/
structure ChainStoreSt where
  chain : List StateUpdate
  head : Option StateChainHead
  branchHead : Nat
deriving Repr, DecidableEq

/-- Fresh store: no updates yet, no head, branch head 0. -/
def initialChainSt : ChainStoreSt := ⟨[], none, 0⟩

/-- Store::get_state_len (src/store.rs lines 441-447): the O(1) item count
from the chain head, none when the state has no head on the branch. -/
def getStateLen (st : ChainStoreSt) : Option Nat :=
  st.head.map (fun h => h.itemCount)

/-- The write itself: frame the record at the next branch sequence, link it
into the chain, update the chain head counters, advance the branch head
(src/store.rs lines 309-345). -/
def doWrite (st : ChainStoreSt) (op : StateOperation) :
    Except StoreError StateUpdate × ChainStoreSt :=
  let seq := st.branchHead + 1
  let upd : StateUpdate := ⟨seq, op⟩
  (.ok upd,
   { chain := st.chain ++ [upd],
     head := some (recordUpdate (st.head.getD emptyHead) op),
     branchHead := seq })

/-- update_state_internal with skip_auto_snapshot = true: write-time
validation (Edit bounds, src/store.rs lines 289-307) then the write. -/
def updateStateCore (st : ChainStoreSt) (op : StateOperation) :
    Except StoreError StateUpdate × ChainStoreSt :=
  match op with
  | .edit index v =>
      if index ≥ (getStateLen st).getD 0 then (.error .invalidOperation, st)
      else doWrite st (.edit index v)
  | _ => doWrite st op

/-- Store::compute_delta_items (src/store.rs lines 837-875) on the reversed
chain: collect Append payload values until any snapshot, ignoring other
operations. -/
def computeDeltaItemsRev : List StateUpdate → Except StoreError (List Json)
  | [] => .ok []
  | u :: rest =>
      match u.operation with
      | .append item =>
          match decodeValue item with
          | .ok v =>
              match computeDeltaItemsRev rest with
              | .ok tail => .ok (v :: tail)
              | .error e => .error e
          | .error e => .error e
      | .snapshot _ => .ok []
      | .deltaSnapshot _ => .ok []
      | _ => computeDeltaItemsRev rest

/-- Store::compute_delta_items: the collected items reversed into array order
and serialized. -/
def computeDeltaItems (chain : List StateUpdate) : Except StoreError (List UInt8) :=
  match computeDeltaItemsRev chain.reverse with
  | .ok items => .ok (encArr items.reverse)
  | .error e => .error e

/-- create_snapshot_if_needed_internal with skip_auto = true
(src/store.rs lines 797-825). -/
def createSnapshotInternal (cfg : AppendLogCfg) (st : ChainStoreSt) :
    Except StoreError Unit × ChainStoreSt :=
  match snapshotNeeded cfg st.head with
  | none => (.ok (), st)
  | some .full =>
      match getStateChain st.chain with
      | .error e => (.error e, st)
      | .ok cur =>
          match updateStateCore st (.snapshot (cur.getD [])) with
          | (.ok _, st2) => (.ok (), st2)
          | (.error e, st2) => (.error e, st2)
  | some .delta =>
      match computeDeltaItems st.chain with
      | .error e => (.error e, st)
      | .ok items =>
          match updateStateCore st (.deltaSnapshot items) with
          | (.ok _, st2) => (.ok (), st2)
          | (.error e, st2) => (.error e, st2)

/-- Store::update_state (src/store.rs lines 265-356): the user write followed
by the automatic snapshot evaluation; an auto-snapshot failure is propagated
with the question-mark operator at line 352 although the user record already
sits in the log. -/
def updateState (cfg : AppendLogCfg) (st : ChainStoreSt) (op : StateOperation) :
    Except StoreError StateUpdate × ChainStoreSt :=
  match updateStateCore st op with
  | (.error e, st1) => (.error e, st1)
  | (.ok rec, st1) =>
      match createSnapshotInternal cfg st1 with
      | (.ok _, st2) => (.ok rec, st2)
      | (.error e, st2) => (.error e, st2)

/-- Run a sequence of user update_state calls from a given store state,
stopping at the first error. -/
def runUpdates (cfg : AppendLogCfg) : ChainStoreSt → List StateOperation →
    Except StoreError ChainStoreSt
  | st, [] => .ok st
  | st, op :: rest =>
      match updateState cfg st op with
      | (.ok _, st2) => runUpdates cfg st2 rest
      | (.error e, _) => .error e

/-- get_state on the machine state (spec 4.5.3). -/
def getState (st : ChainStoreSt) : Except StoreError (Option (List UInt8)) :=
  getStateChain st.chain

/-! ## Store::get_state_tail (src/store.rs lines 489-579) -/

/-- The backward item walk of get_state_tail over the reversed chain.
Returns none to request the full-reconstruction fallback (an Edit or Redact
was met before n items were collected); otherwise the collected items in walk
order (newest first). -/
def tailWalkRev : List StateUpdate → Nat → List Json →
    Except StoreError (Option (List Json))
  | [], _, acc => .ok (some acc)
  | u :: rest, n, acc =>
      if acc.length ≥ n then .ok (some acc)
      else
        match u.operation with
        | .append item =>
            match decodeValue item with
            | .ok v => tailWalkRev rest n (acc ++ [v])
            | .error e => .error e
        | .deltaSnapshot data =>
            match decodeArray data with
            | .ok xs => tailWalkRev rest n (acc ++ (xs.drop (xs.length - (n - acc.length))).reverse)
            | .error e => .error e
        | .snapshot data =>
            match decodeArray data with
            | .ok xs => .ok (some (acc ++ (xs.drop (xs.length - (n - acc.length))).reverse))
            | .error e => .error e
        | .edit _ _ => .ok none
        | .redact _ _ => .ok none
        | _ => tailWalkRev rest n acc

/-- Store::get_state_tail on a chain with its head. -/
def getStateTailChain (head : Option StateChainHead) (chain : List StateUpdate)
    (n : Nat) : Except StoreError (Option (List UInt8)) :=
  match head with
  | none => .ok none
  | some h =>
      if n = 0 then .ok (some (encArr []))
      else if n ≥ h.itemCount then getStateChain chain
      else
        match tailWalkRev chain.reverse n [] with
        | .error e => .error e
        | .ok (some items) => .ok (some (encArr items.reverse))
        | .ok none =>
            match getStateChain chain with
            | .error e => .error e
            | .ok stOpt =>
                let state := stOpt.getD []
                if state.isEmpty then .ok (some (encArr []))
                else
                  match decodeArray state with
                  | .ok arr => .ok (some (encArr (arr.drop (arr.length - n))))
                  | .error e => .error e

/-- get_state_tail on the machine state. -/
def getStateTail (st : ChainStoreSt) (n : Nat) :
    Except StoreError (Option (List UInt8)) :=
  getStateTailChain st.head st.chain n

/-! ## Chain-extension lemmas for the write path -/

/-- A successful update_state_internal write links exactly the returned record
onto the chain. -/
theorem updateStateCore_ok_chain (st : ChainStoreSt) (op : StateOperation)
    (rec : StateUpdate) (st1 : ChainStoreSt)
    (h : updateStateCore st op = (.ok rec, st1)) :
    st1.chain = st.chain ++ [rec] := by
  cases op <;>
    simp only [updateStateCore, doWrite] at h <;>
    first
    | (rw [Prod.mk.injEq] at h
       obtain ⟨h1, h2⟩ := h
       injection h1 with h1
       subst h1; subst h2; rfl)
    | (split at h
       · exact absurd (congrArg Prod.fst h) (by simp)
       · rw [Prod.mk.injEq] at h
         obtain ⟨h1, h2⟩ := h
         injection h1 with h1
         subst h1; subst h2; rfl)

/-- update_state_internal only ever appends to the chain. -/
theorem updateStateCore_chain_ext (st : ChainStoreSt) (op : StateOperation) :
    ∃ ext, (updateStateCore st op).2.chain = st.chain ++ ext := by
  cases op <;> simp only [updateStateCore, doWrite] <;>
    first
    | exact ⟨[_], rfl⟩
    | (split
       · exact ⟨[], (List.append_nil _).symm⟩
       · exact ⟨[_], rfl⟩)

/-- The automatic snapshot step only ever appends to the chain, whether it
succeeds or fails. -/
theorem createSnapshotInternal_chain_ext (cfg : AppendLogCfg) (st : ChainStoreSt) :
    ∃ ext, (createSnapshotInternal cfg st).2.chain = st.chain ++ ext := by
  cases hsn : snapshotNeeded cfg st.head with
  | none =>
    refine ⟨[], ?_⟩
    simp only [createSnapshotInternal, hsn]
    exact (List.append_nil _).symm
  | some k =>
    cases k with
    | full =>
      cases hgc : getStateChain st.chain with
      | error e =>
        refine ⟨[], ?_⟩
        simp only [createSnapshotInternal, hsn, hgc]
        exact (List.append_nil _).symm
      | ok cur =>
        obtain ⟨ext, hext⟩ := updateStateCore_chain_ext st (.snapshot (cur.getD []))
        refine ⟨ext, ?_⟩
        simp only [createSnapshotInternal, hsn, hgc]
        cases hup : updateStateCore st (.snapshot (cur.getD [])) with
        | mk r2 st2 =>
          rw [hup] at hext
          cases r2 <;> simpa using hext
    | delta =>
      cases hcd : computeDeltaItems st.chain with
      | error e =>
        refine ⟨[], ?_⟩
        simp only [createSnapshotInternal, hsn, hcd]
        exact (List.append_nil _).symm
      | ok items =>
        obtain ⟨ext, hext⟩ := updateStateCore_chain_ext st (.deltaSnapshot items)
        refine ⟨ext, ?_⟩
        simp only [createSnapshotInternal, hsn, hcd]
        cases hup : updateStateCore st (.deltaSnapshot items) with
        | mk r2 st2 =>
          rw [hup] at hext
          cases r2 <;> simpa using hext

/-! ## Claim C2 -/

/-- The chain produced by two user appends under AppendLog{delta_every 2,
full_every 1000}: the store inserts a DeltaSnapshot of its own after the
second append. -/
def c2chain : List StateUpdate :=
  [⟨1, .append (strB "1")⟩, ⟨2, .append (strB "2")⟩,
   ⟨3, .deltaSnapshot (strB "[1,2]")⟩]

/-- C2 counterexample: with delta_snapshot_every = 2, the user writes
Append "1" then Append "2"; the store auto-inserts DeltaSnapshot "[1,2]" as a
third chain record.  get_state returns "[1,2]", but the fold of all three
chain operations via apply_operation from empty bytes returns "[1,2,1,2]":
apply_operation treats a DeltaSnapshot as "concatenate these items", so
folding the materialized chain double-counts every item a delta snapshot
covers.  The claim's "including any auto-snapshot updates" equality fails. -/
theorem C2_counterexample :
    (runUpdates ⟨2, 1000⟩ initialChainSt
        [.append (strB "1"), .append (strB "2")]).map ChainStoreSt.chain =
      .ok c2chain ∧
    getStateChain c2chain = .ok (some (strB "[1,2]")) ∧
    foldOps [] (c2chain.map (fun u => u.operation)) = .ok (strB "[1,2,1,2]") ∧
    strB "[1,2]" ≠ strB "[1,2,1,2]" :=
  ⟨rfl, rfl, rfl, by decide⟩

/-- C2 (amended): on a chain that contains no DeltaSnapshot update, whenever
the fold of the chain operations via apply_operation from empty bytes
succeeds, get_state returns exactly that fold.  (With auto delta snapshots on
the chain the equality is false, see the counterexample: apply_operation
re-applies the items the delta snapshot summarizes.) -/
theorem C2_get_state_eq_fold (st : ChainStoreSt) (hne : st.chain ≠ [])
    (hds : ∀ u ∈ st.chain, isDeltaSnap u.operation = false)
    (v : List UInt8)
    (hfold : foldOps [] (st.chain.map (fun u => u.operation)) = .ok v) :
    getState st = .ok (some v) :=
  getStateChain_eq_fold st.chain hne hds v hfold

/-- C2 witness: two appends with no delta snapshot on the chain; get_state is
the fold "[1,2]". -/
theorem C2_get_state_eq_fold_witness :
    getState ⟨[⟨1, .append (strB "1")⟩, ⟨2, .append (strB "2")⟩],
        some ⟨2, 2, 0, 2⟩, 2⟩ = .ok (some (strB "[1,2]")) :=
  C2_get_state_eq_fold _ (by decide) (by decide) (strB "[1,2]") (by rfl)

/-! ## Claim C3 -/

/-- C3 counterexample: with delta_snapshot_every = 1, a single
Append "notjson" triggers an automatic delta snapshot whose
compute_delta_items fails to decode the payload.  update_state returns that
deserialization error — not the user's record — even though the user's
write already sits on the chain. -/
theorem C3_counterexample :
    (updateState ⟨1, 1000⟩ initialChainSt (.append (strB "notjson"))).1 =
      .error .deserialization ∧
    (updateState ⟨1, 1000⟩ initialChainSt (.append (strB "notjson"))).2.chain =
      [⟨1, .append (strB "notjson")⟩] :=
  ⟨rfl, rfl⟩

/-- C3 (amended): when the user's write succeeds and the subsequent automatic
snapshot evaluation fails, update_state propagates the auto-snapshot error
(store.rs line 352 uses the question-mark operator; Record carries no warning
field) — but the user's write is indeed not rolled back: the returned-error
call leaves the user's record on the chain. -/
theorem C3_auto_snapshot_error (cfg : AppendLogCfg) (st : ChainStoreSt)
    (op : StateOperation) (rec : StateUpdate) (st1 : ChainStoreSt)
    (e : StoreError) (st2 : ChainStoreSt)
    (h1 : updateStateCore st op = (.ok rec, st1))
    (h2 : createSnapshotInternal cfg st1 = (.error e, st2)) :
    updateState cfg st op = (.error e, st2) ∧ rec ∈ st2.chain := by
  constructor
  · unfold updateState
    rw [h1]
    dsimp only
    rw [h2]
  · have hc1 : st1.chain = st.chain ++ [rec] := updateStateCore_ok_chain st op rec st1 h1
    obtain ⟨ext, hext⟩ := createSnapshotInternal_chain_ext cfg st1
    rw [h2] at hext
    rw [hc1] at hext
    rw [hext]
    simp

/-- C3 witness: the counterexample trace run through the amended theorem. -/
theorem C3_auto_snapshot_error_witness :
    updateState ⟨1, 1000⟩ initialChainSt (.append (strB "notjson")) =
      (.error .deserialization,
       ⟨[⟨1, .append (strB "notjson")⟩], some ⟨1, 1, 0, 1⟩, 1⟩) ∧
    (⟨1, .append (strB "notjson")⟩ : StateUpdate) ∈
      (⟨[⟨1, .append (strB "notjson")⟩], some ⟨1, 1, 0, 1⟩, 1⟩ : ChainStoreSt).chain :=
  C3_auto_snapshot_error ⟨1, 1000⟩ initialChainSt (.append (strB "notjson"))
    ⟨1, .append (strB "notjson")⟩
    ⟨[⟨1, .append (strB "notjson")⟩], some ⟨1, 1, 0, 1⟩, 1⟩
    .deserialization
    ⟨[⟨1, .append (strB "notjson")⟩], some ⟨1, 1, 0, 1⟩, 1⟩
    (by rfl) (by rfl)

/-! ## Claim C5 -/

/-- The chain of the C5 counterexample: two user appends and the store's own
DeltaSnapshot under AppendLog{delta_every 2, full_every 1000}. -/
def c5chain : List StateUpdate :=
  [⟨1, .append (strB "7")⟩, ⟨2, .append (strB "8")⟩,
   ⟨3, .deltaSnapshot (strB "[7,8]")⟩]

/-- C5 counterexample: on a chain holding an auto-inserted DeltaSnapshot,
get_state_at(s) (here s = 3, covering the whole chain) is "[7,8]" while the
fold via apply_operation of the chain operations with sequence at most s is
"[7,8,7,8]": the fold re-applies the items the delta snapshot summarizes, so
the claim's fold equality fails. -/
theorem C5_counterexample :
    (runUpdates ⟨2, 1000⟩ initialChainSt
        [.append (strB "7"), .append (strB "8")]).map ChainStoreSt.chain =
      .ok c5chain ∧
    getStateAtChain c5chain 3 = .ok (some (strB "[7,8]")) ∧
    foldOps [] ((c5chain.filter (fun u => u.sequence ≤ 3)).map
        (fun u => u.operation)) = .ok (strB "[7,8,7,8]") ∧
    strB "[7,8]" ≠ strB "[7,8,7,8]" :=
  ⟨rfl, rfl, rfl, by decide⟩

/-- C5 (amended): get_state_at(s) reconstructs exactly from the chain updates
with sequence at most s — it equals get_state of the filtered chain, returns
none when no update with sequence at most s exists, and equals the
apply_operation fold of the filtered operations whenever that filtered chain
is nonempty, free of DeltaSnapshot updates, and the fold succeeds.  (With a
DeltaSnapshot among the selected updates the fold equality is false, see the
counterexample.) -/
theorem C5_get_state_at (chain : List StateUpdate) (s : Nat) :
    getStateAtChain chain s =
      getStateChain (chain.filter (fun u => u.sequence ≤ s)) ∧
    ((∀ u ∈ chain, ¬ u.sequence ≤ s) → getStateAtChain chain s = .ok none) ∧
    (∀ v : List UInt8, chain.filter (fun u => u.sequence ≤ s) ≠ [] →
      (∀ u ∈ chain.filter (fun u => u.sequence ≤ s),
        isDeltaSnap u.operation = false) →
      foldOps [] ((chain.filter (fun u => u.sequence ≤ s)).map
        (fun u => u.operation)) = .ok v →
      getStateAtChain chain s = .ok (some v)) := by
  refine ⟨getStateAtChain_filter chain s, ?_, ?_⟩
  · intro hnone
    rw [getStateAtChain_filter chain s]
    have hnil : chain.filter (fun u => u.sequence ≤ s) = [] := by
      rw [List.filter_eq_nil_iff]
      intro u hu
      simpa using hnone u hu
    rw [hnil]
    rfl
  · intro v hne hds hfold
    rw [getStateAtChain_filter chain s]
    exact getStateChain_eq_fold _ hne hds v hfold

/-- C5 witness: chain with sequences 1 and 2, at_sequence 1: the update with
sequence 2 is excluded and the result is the fold "[5]" of the prefix. -/
theorem C5_get_state_at_witness :
    getStateAtChain [⟨1, .append (strB "5")⟩, ⟨2, .append (strB "6")⟩] 1 =
      .ok (some (strB "[5]")) :=
  (C5_get_state_at [⟨1, .append (strB "5")⟩, ⟨2, .append (strB "6")⟩] 1).2.2
    (strB "[5]") (by decide) (by decide) (by rfl)

/-! ## Claim C8 -/

/-- C8: Redact{start, stop} on an array-valued state clamps both bounds to
the array length and removes the half-open range only when start < stop after
clamping; on [1,2,3,4,5], Redact{1,3} gives [1,4,5] while Redact{10,20} and
Redact{3,1} leave the array unchanged. -/
theorem C8_redact (state : List UInt8) (xs : List Json) (start stop : Nat)
    (h : stateArray state = .ok xs) :
    applyOperation state (.redact start stop) =
      .ok (encArr (if min start xs.length < min stop xs.length then
        xs.take (min start xs.length) ++ xs.drop (min stop xs.length)
      else xs)) ∧
    applyOperation (strB "[1,2,3,4,5]") (.redact 1 3) = .ok (strB "[1,4,5]") ∧
    applyOperation (strB "[1,2,3,4,5]") (.redact 10 20) =
      .ok (strB "[1,2,3,4,5]") ∧
    applyOperation (strB "[1,2,3,4,5]") (.redact 3 1) =
      .ok (strB "[1,2,3,4,5]") := by
  refine ⟨?_, rfl, rfl, rfl⟩
  have e1 : applyOperation state (.redact start stop) =
      (stateArray state).bind (fun arr =>
        if min start arr.length < min stop arr.length then
          Except.ok (encArr (arr.take (min start arr.length) ++
            arr.drop (min stop arr.length)))
        else Except.ok (encArr arr)) := rfl
  rw [e1, h, exbind_ok]
  split <;> rfl

/-- C8 witness: redacting index range 0..1 of "[1,2]" leaves "[2]". -/
theorem C8_redact_witness :
    applyOperation (strB "[1,2]") (.redact 0 1) = .ok (strB "[2]") :=
  ((C8_redact (strB "[1,2]") [.num 1, .num 2] 0 1 (by rfl)).1).trans (by rfl)

/-! ## Claim C10 -/

/-- A successful write installs exactly the counter-updated head. -/
theorem updateStateCore_ok_head (st : ChainStoreSt) (op : StateOperation)
    (rec : StateUpdate) (st1 : ChainStoreSt)
    (h : updateStateCore st op = (.ok rec, st1)) :
    st1.head = some (recordUpdate (st.head.getD emptyHead) op) := by
  cases op <;>
    simp only [updateStateCore, doWrite] at h <;>
    first
    | (rw [Prod.mk.injEq] at h
       obtain ⟨h1, h2⟩ := h
       subst h2; rfl)
    | (split at h
       · exact absurd (congrArg Prod.fst h) (by simp)
       · rw [Prod.mk.injEq] at h
         obtain ⟨h1, h2⟩ := h
         subst h2; rfl)

/-- C10: get_state_len is the chain head's item_count and nothing else.  A
state with no head on the branch — never updated there, or not registered,
which the model identifies since registration installs no head (modelled from
the spec: src/state/manager.rs is absent; Store::register_state only records
the strategy) — gives none rather than some 0 or an error; once a head exists
it gives exactly its item_count, read from the head alone (the definition
never touches the chain); and any successful write leaves a head, so the
result is then some of the freshly maintained item_count. -/
theorem C10_get_state_len (st : ChainStoreSt) :
    getStateLen initialChainSt = none ∧
    (st.head = none → getStateLen st = none) ∧
    (∀ hd : StateChainHead, st.head = some hd →
      getStateLen st = some hd.itemCount) ∧
    (∀ (op : StateOperation) (rec : StateUpdate) (st1 : ChainStoreSt),
      updateStateCore st op = (.ok rec, st1) →
      getStateLen st1 =
        some (recordUpdate (st.head.getD emptyHead) op).itemCount) := by
  refine ⟨rfl, ?_, ?_, ?_⟩
  · intro h
    rw [getStateLen, h]
    rfl
  · intro hd h
    rw [getStateLen, h]
    rfl
  · intro op rec st1 h
    rw [getStateLen, updateStateCore_ok_head st op rec st1 h]
    rfl

/-- C10 witness: a head with one item gives length some 1. -/
theorem C10_get_state_len_witness :
    getStateLen ⟨[⟨1, .append (strB "1")⟩], some ⟨1, 1, 0, 1⟩, 1⟩ = some 1 :=
  (C10_get_state_len ⟨[⟨1, .append (strB "1")⟩], some ⟨1, 1, 0, 1⟩, 1⟩).2.2.1
    ⟨1, 1, 0, 1⟩ rfl

/-! ## Branches: create_branch / switch_branch / append
(src/branches/manager.rs, src/store.rs lines 186-209)

Branch names are byte strings; the manager's two maps (name to id, id to
branch) become one association list keyed by both.  The record log is
projected to the (branch, sequence) pairs it frames, which is what claim C4
is about. -/

/-- A branch as kept by BranchManager (src/branches/manager.rs): timestamps
are dropped. -/
structure Branch0 where
  id : Nat
  name : List UInt8
  head : Nat
  parent : Option Nat
  branchPoint : Option Nat
deriving Repr, DecidableEq

/-- The branch index plus the (branch, sequence) trace of written records. -/
structure BranchSys where
  branches : List Branch0
  nextId : Nat
  current : Nat
  log : List (Nat × Nat)
deriving Repr, DecidableEq

/-- BranchManager::new's bootstrap: main with id 1, head 0, no parent. -/
def initBranchSys : BranchSys :=
  ⟨[⟨1, strB "main", 0, none, none⟩], 2, 1, []⟩

/-- name_to_id followed by branches.get (src/branches/manager.rs). -/
def findByName (sys : BranchSys) (name : List UInt8) : Option Branch0 :=
  sys.branches.find? (fun b => b.name = name)

/-- branches.get by id. -/
def findById (sys : BranchSys) (id : Nat) : Option Branch0 :=
  sys.branches.find? (fun b => b.id = id)

/-- BranchManager::update_head (src/branches/manager.rs lines 269-278). -/
def setHead (bs : List Branch0) (id h : Nat) : List Branch0 :=
  bs.map (fun b => if b.id = id then { b with head := h } else b)

/-- A record write on the current branch: Store::append frames the record at
head.next(), then update_head (src/store.rs lines 186-209); update_state
frames its state-update record the same way. -/
def appendRec (sys : BranchSys) : Except StoreError BranchSys :=
  match findById sys sys.current with
  | none => .error .branchNotFound
  | some b =>
      .ok { sys with
            branches := setHead sys.branches b.id (b.head + 1),
            log := sys.log ++ [(b.id, b.head + 1)] }

/-- BranchManager::create_branch (src/branches/manager.rs lines 141-179):
the child starts at head = parent.head with branch_point = parent.head. -/
def createBranch (sys : BranchSys) (name : List UInt8)
    (from? : Option (List UInt8)) : Except StoreError BranchSys :=
  if (findByName sys name).isSome then .error .branchExists
  else
    match findByName sys (from?.getD (strB "main")) with
    | none => .error .branchNotFound
    | some parent =>
        .ok { sys with
              branches := sys.branches ++
                [⟨sys.nextId, name, parent.head, some parent.id,
                  some parent.head⟩],
              nextId := sys.nextId + 1 }

/-- BranchManager::switch_branch (src/branches/manager.rs lines 249-266). -/
def switchBranch (sys : BranchSys) (name : List UInt8) :
    Except StoreError BranchSys :=
  match findByName sys name with
  | none => .error .branchNotFound
  | some b => .ok { sys with current := b.id }

/-- The store calls claim C4 ranges over, record writes collapsed to one
event. -/
inductive SysOp where
  | write : SysOp
  | createBranch : List UInt8 → Option (List UInt8) → SysOp
  | switchBranch : List UInt8 → SysOp
deriving Repr, DecidableEq

/-- One store call; a failing call leaves the store unchanged. -/
def sysStep (sys : BranchSys) : SysOp → Except StoreError BranchSys
  | .write => appendRec sys
  | .createBranch name from? => createBranch sys name from?
  | .switchBranch name => switchBranch sys name

/-- Run a call sequence; failing calls return their error to the caller and
leave the store as it was. -/
def runSys : BranchSys → List SysOp → BranchSys
  | sys, [] => sys
  | sys, op :: rest =>
      runSys (match sysStep sys op with | .ok s => s | .error _ => sys) rest

/-- The per-branch sequence trace: sequences of log records framed on branch
id, in write order. -/
def branchSeqs (sys : BranchSys) (id : Nat) : List Nat :=
  (sys.log.filter (fun r => r.1 = id)).map Prod.snd

/-- The invariant the branch system maintains: the current branch exists, ids
are unique and below next_id, logged branch ids are below next_id, each
branch point is at most its head, and each branch's sequence trace is exactly
branch_point+1 .. head in order. -/
def SysInv (sys : BranchSys) : Prop :=
  (∃ b ∈ sys.branches, b.id = sys.current) ∧
  (∀ b₁ ∈ sys.branches, ∀ b₂ ∈ sys.branches, b₁.id = b₂.id → b₁ = b₂) ∧
  (∀ b ∈ sys.branches, b.id < sys.nextId) ∧
  (∀ r ∈ sys.log, r.1 < sys.nextId) ∧
  (∀ b ∈ sys.branches, b.branchPoint.getD 0 ≤ b.head) ∧
  (∀ b ∈ sys.branches,
    branchSeqs sys b.id =
      List.range' (b.branchPoint.getD 0 + 1) (b.head - b.branchPoint.getD 0))

/-- update_head rewrites only the head field of the matching branch. -/
theorem setHead_eq (bs : List Branch0) (i h : Nat) :
    setHead bs i h =
      bs.map (fun b0 => { b0 with head := if b0.id = i then h else b0.head }) := by
  unfold setHead
  congr 1
  funext b0
  split <;> rfl

/-- Appending one log record extends exactly the matching branch's trace. -/
theorem branchSeqs_append (log : List (Nat × Nat)) (i s x : Nat) :
    ((log ++ [(i, s)]).filter (fun r => r.1 = x)).map Prod.snd =
      (log.filter (fun r => r.1 = x)).map Prod.snd ++
        (if i = x then [s] else []) := by
  rw [List.filter_append, List.map_append]
  congr 1
  by_cases hix : i = x
  · simp [hix]
  · simp [hix]

/-- The invariant holds in the freshly initialized store. -/
theorem sysInv_init : SysInv initBranchSys := by
  unfold SysInv
  decide

/-- Every store call preserves the branch invariant. -/
theorem sysStep_inv (sys : BranchSys) (op : SysOp) (h : SysInv sys) :
    SysInv (match sysStep sys op with | .ok s => s | .error _ => sys) := by
  obtain ⟨hcur, huniq, hid, hlog, hbp, hseq⟩ := h
  cases op with
  | write =>
    dsimp only [sysStep, appendRec]
    cases hf : findById sys sys.current with
    | none => exact ⟨hcur, huniq, hid, hlog, hbp, hseq⟩
    | some b =>
      have hbmem : b ∈ sys.branches := List.mem_of_find?_eq_some hf
      dsimp only
      rw [setHead_eq]
      refine ⟨?_, ?_, ?_, ?_, ?_, ?_⟩
      · obtain ⟨c, hc, hcid⟩ := hcur
        exact ⟨_, List.mem_map_of_mem _ hc, hcid⟩
      · intro b₁ h₁ b₂ h₂ hids
        obtain ⟨c₁, hc₁, rfl⟩ := List.mem_map.mp h₁
        obtain ⟨c₂, hc₂, rfl⟩ := List.mem_map.mp h₂
        have : c₁ = c₂ := huniq c₁ hc₁ c₂ hc₂ hids
        rw [this]
      · intro b' hb'
        obtain ⟨c, hc, rfl⟩ := List.mem_map.mp hb'
        exact hid c hc
      · intro r hr
        rcases List.mem_append.mp hr with hr | hr
        · exact hlog r hr
        · rcases List.mem_singleton.mp hr with rfl
          exact hid b hbmem
      · intro b' hb'
        obtain ⟨c, hc, rfl⟩ := List.mem_map.mp hb'
        have hc' := hbp c hc
        dsimp only
        by_cases hcb : c.id = b.id
        · obtain rfl : c = b := huniq c hc b hbmem hcb
          rw [if_pos hcb]
          omega
        · rw [if_neg hcb]
          exact hc'
      · intro b' hb'
        obtain ⟨c, hc, rfl⟩ := List.mem_map.mp hb'
        have htr := hseq c hc
        unfold branchSeqs at htr ⊢
        dsimp only
        rw [branchSeqs_append]
        by_cases hcb : c.id = b.id
        · obtain rfl : c = b := huniq c hc b hbmem hcb
          have hcle := hbp c hc
          rw [if_pos hcb, if_pos hcb, htr]
          rw [show c.head + 1 - c.branchPoint.getD 0 =
            (c.head - c.branchPoint.getD 0) + 1 from by omega]
          rw [List.range'_concat]
          rw [show c.branchPoint.getD 0 + 1 +
            1 * (c.head - c.branchPoint.getD 0) = c.head + 1 from by omega]
        · rw [if_neg (fun hx => hcb hx.symm), if_neg hcb]
          rw [List.append_nil, htr]
  | createBranch name from? =>
    dsimp only [sysStep, createBranch]
    by_cases hex : (findByName sys name).isSome
    · rw [if_pos hex]
      exact ⟨hcur, huniq, hid, hlog, hbp, hseq⟩
    · rw [if_neg hex]
      cases hf : findByName sys (from?.getD (strB "main")) with
      | none => exact ⟨hcur, huniq, hid, hlog, hbp, hseq⟩
      | some parent =>
        have hpmem : parent ∈ sys.branches := List.mem_of_find?_eq_some hf
        dsimp only
        refine ⟨?_, ?_, ?_, ?_, ?_, ?_⟩
        · obtain ⟨c, hc, hcid⟩ := hcur
          exact ⟨c, List.mem_append_left _ hc, hcid⟩
        · intro b₁ h₁ b₂ h₂ hids
          rcases List.mem_append.mp h₁ with h₁ | h₁ <;>
            rcases List.mem_append.mp h₂ with h₂ | h₂
          · exact huniq b₁ h₁ b₂ h₂ hids
          · rcases List.mem_singleton.mp h₂ with rfl
            exact absurd hids (Nat.ne_of_lt (hid b₁ h₁))
          · rcases List.mem_singleton.mp h₁ with rfl
            exact absurd hids.symm (Nat.ne_of_lt (hid b₂ h₂))
          · rw [List.mem_singleton.mp h₁, List.mem_singleton.mp h₂]
        · intro b' hb'
          rcases List.mem_append.mp hb' with hb' | hb'
          · exact Nat.lt_succ_of_lt (hid b' hb')
          · rcases List.mem_singleton.mp hb' with rfl
            exact Nat.lt_succ_self _
        · intro r hr
          exact Nat.lt_succ_of_lt (hlog r hr)
        · intro b' hb'
          rcases List.mem_append.mp hb' with hb' | hb'
          · exact hbp b' hb'
          · rcases List.mem_singleton.mp hb' with rfl
            exact Nat.le_refl _
        · intro b' hb'
          rcases List.mem_append.mp hb' with hb' | hb'
          · exact hseq b' hb'
          · rcases List.mem_singleton.mp hb' with rfl
            unfold branchSeqs
            dsimp only
            have hnil : sys.log.filter
                (fun r => decide (r.1 = sys.nextId)) = [] := by
              rw [List.filter_eq_nil_iff]
              intro r hr
              simpa using Nat.ne_of_lt (hlog r hr)
            rw [hnil]
            simp
  | switchBranch name =>
    dsimp only [sysStep, switchBranch]
    cases hf : findByName sys name with
    | none => exact ⟨hcur, huniq, hid, hlog, hbp, hseq⟩
    | some b =>
      exact ⟨⟨b, List.mem_of_find?_eq_some hf, rfl⟩,
        huniq, hid, hlog, hbp, hseq⟩

/-- The invariant holds in every reachable store. -/
theorem runSys_inv (ops : List SysOp) (sys : BranchSys) (h : SysInv sys) :
    SysInv (runSys sys ops) := by
  induction ops generalizing sys with
  | nil => exact h
  | cons op rest ih => exact ih _ (sysStep_inv sys op h)

/-! ## Claim C4 -/

/-- The trace of the C4 counterexample: a write on main, a branch created
off main, a switch to it, and one write there. -/
def c4sys : BranchSys :=
  runSys initBranchSys
    [.write, .createBranch (strB "feature") none,
     .switchBranch (strB "feature"), .write]

/-- C4 counterexample: after a write on main (head 1), create_branch
"feature" inherits head = 1 with branch_point = 1; a write on feature frames
sequence 2, so feature ends with head = 2 while the records carrying
branch = feature have sequence multiset [2], not {1, 2}: create_branch
starts the child at the parent's head, so sequences 1..branch_point never
appear on the child. -/
theorem C4_counterexample :
    findByName c4sys (strB "feature") =
      some ⟨2, strB "feature", 2, some 1, some 1⟩ ∧
    branchSeqs c4sys 2 = [2] ∧
    ¬ (branchSeqs c4sys 2).Perm (List.range' 1 2) := by
  refine ⟨rfl, rfl, ?_⟩
  decide

/-- C4 (amended): in every store reachable by append, update_state,
create_branch and switch_branch calls, each branch B carries exactly the
sequences branch_point+1, branch_point+2, ..., B.head — in order, strictly
increasing, no gaps — where branch_point is 0 for main; the claim's multiset
{1, ..., B.head} holds only for branches with branch_point 0. -/
theorem C4_branch_sequences (ops : List SysOp) (b : Branch0)
    (hb : b ∈ (runSys initBranchSys ops).branches) :
    branchSeqs (runSys initBranchSys ops) b.id =
      List.range' (b.branchPoint.getD 0 + 1)
        (b.head - b.branchPoint.getD 0) :=
  (runSys_inv ops initBranchSys sysInv_init).2.2.2.2.2 b hb

/-- C4 witness: after one write on main, main's trace is [1] = range 1..1. -/
theorem C4_branch_sequences_witness :
    branchSeqs (runSys initBranchSys [.write]) 1 = List.range' 1 1 :=
  C4_branch_sequences [.write] ⟨1, strB "main", 1, none, none⟩ (by decide)

/-! ## The record index (src/records/index.rs) and Store::open
(src/store.rs lines 142-181)

The BTreeMap/HashMap maps become association lists with insert-replace;
Vec-valued maps get push-to-entry.  A record is projected to the fields the
index consumes. -/

/-- Association-list lookup. -/
def alGet {α β : Type} [DecidableEq α] (k : α) : List (α × β) → Option β
  | [] => none
  | (k', v) :: t => if k' = k then some v else alGet k t

/-- Association-list insert-or-replace (BTreeMap/HashMap insert). -/
def alInsert {α β : Type} [DecidableEq α] (k : α) (v : β) :
    List (α × β) → List (α × β)
  | [] => [(k, v)]
  | (k', v') :: t => if k' = k then (k, v) :: t else (k', v') :: alInsert k v t

/-- entry(k).or_default().push(x) on a Vec-valued map. -/
def alPush {α : Type} [DecidableEq α] (k : α) (x : Nat)
    (m : List (α × List Nat)) : List (α × List Nat) :=
  alInsert k ((alGet k m).getD [] ++ [x]) m

/-- The fields of a logged record that the index consumes. -/
structure RecordMeta where
  id : Nat
  branch : Nat
  sequence : Nat
  recordType : List UInt8
  causedBy : List Nat
  linkedTo : List Nat
deriving Repr, DecidableEq

/-- RecordIndex (src/records/index.rs): its five in-memory maps. -/
structure RecordIndex where
  entries : List ((Nat × Nat) × Nat)
  idToOffset : List (Nat × Nat)
  typeIndex : List (List UInt8 × List Nat)
  causedByIndex : List (Nat × List Nat)
  linkedToIndex : List (Nat × List Nat)
deriving Repr, DecidableEq

/-- RecordIndex::new: every map empty. -/
def RecordIndex.new : RecordIndex := ⟨[], [], [], [], []⟩

/-- RecordIndex::load (src/records/index.rs lines 77-82): deprecated, "for
backwards compatibility, just creates empty index". -/
def RecordIndex.load : RecordIndex := RecordIndex.new

/-- RecordIndex::add (src/records/index.rs lines 85-122). -/
def RecordIndex.add (idx : RecordIndex) (r : RecordMeta) (offset : Nat) :
    RecordIndex :=
  { entries := alInsert (r.branch, r.sequence) offset idx.entries,
    idToOffset := alInsert r.id offset idx.idToOffset,
    typeIndex := alPush r.recordType r.id idx.typeIndex,
    causedByIndex :=
      r.causedBy.foldl (fun m cause => alPush cause r.id m) idx.causedByIndex,
    linkedToIndex :=
      r.linkedTo.foldl (fun m link => alPush link r.id m) idx.linkedToIndex }

/-- RecordIndex::rebuild_causation_for (src/records/index.rs lines 159-175):
only the two causation maps are touched. -/
def RecordIndex.rebuildCausationFor (idx : RecordIndex) (r : RecordMeta) :
    RecordIndex :=
  { idx with
    causedByIndex :=
      r.causedBy.foldl (fun m cause => alPush cause r.id m) idx.causedByIndex,
    linkedToIndex :=
      r.linkedTo.foldl (fun m link => alPush link r.id m) idx.linkedToIndex }

/-- RecordIndex::rebuild_from_log (src/records/index.rs lines 56-76): scan
the whole log, add every record.  The log is its (offset, record) listing in
file order; Store::append issues the same RecordIndex::add calls as records
are written (src/store.rs lines 194-203), so this is also the live index the
running store held after writing those records. -/
def rebuildFromLog (log : List (Nat × RecordMeta)) : RecordIndex :=
  log.foldl (fun idx entry => idx.add entry.2 entry.1) RecordIndex.new

/-- Store::rebuild_causation_indexes (src/store.rs lines 175-181). -/
def rebuildCausationIndexes (idx : RecordIndex)
    (log : List (Nat × RecordMeta)) : RecordIndex :=
  log.foldl (fun i entry => i.rebuildCausationFor entry.2) idx

/-- The record index Store::open leaves behind (src/store.rs lines 142-172):
RecordIndex::load at line 151 — the deprecated empty-index constructor — then
rebuild_causation_indexes; rebuild_from_log is never called. -/
def storeOpenIndex (log : List (Nat × RecordMeta)) : RecordIndex :=
  rebuildCausationIndexes RecordIndex.load log

/-- RecordIndex::get_offset. -/
def getOffset (idx : RecordIndex) (branch seq : Nat) : Option Nat :=
  alGet (branch, seq) idx.entries

/-- RecordIndex::get_offset_by_id. -/
def getOffsetById (idx : RecordIndex) (id : Nat) : Option Nat :=
  alGet id idx.idToOffset

/-- RecordIndex::get_by_type. -/
def getByType (idx : RecordIndex) (t : List UInt8) : List Nat :=
  (alGet t idx.typeIndex).getD []

/-- RecordIndex::get_caused_by. -/
def getCausedBy (idx : RecordIndex) (id : Nat) : List Nat :=
  (alGet id idx.causedByIndex).getD []

/-- RecordIndex::get_linked_to. -/
def getLinkedTo (idx : RecordIndex) (id : Nat) : List Nat :=
  (alGet id idx.linkedToIndex).getD []

/-- The one-record log of the C1 failing input: record id 1, branch 1,
sequence 1, type "event", cause link 1 → none, at offset 0. -/
def c1log : List (Nat × RecordMeta) :=
  [(0, ⟨1, 1, 1, strB "event", [], []⟩)]

/-- C1: Store::open does not rebuild the record index from the log.  It calls
the deprecated RecordIndex::load — which creates an empty index — and then
rebuilds only the causation maps, so after reopening a store holding one
record, get_offset, get_offset_by_id and get_by_type all come back empty
while the live index before the close answered them; only get_caused_by and
get_linked_to survive. -/
theorem C1_open_loses_record_index :
    getOffset (storeOpenIndex c1log) 1 1 = none ∧
    getOffset (rebuildFromLog c1log) 1 1 = some 0 ∧
    getOffsetById (storeOpenIndex c1log) 1 = none ∧
    getOffsetById (rebuildFromLog c1log) 1 = some 0 ∧
    getByType (storeOpenIndex c1log) (strB "event") = [] ∧
    getByType (rebuildFromLog c1log) (strB "event") = [1] ∧
    getCausedBy (storeOpenIndex c1log) 1 = getCausedBy (rebuildFromLog c1log) 1 ∧
    getLinkedTo (storeOpenIndex c1log) 1 = getLinkedTo (rebuildFromLog c1log) 1 :=
  ⟨rfl, rfl, rfl, rfl, rfl, rfl, rfl, rfl⟩

/-! ## The record log binary format (src/records/log.rs)

Machine integers are Nat (u16/u32/u64) and Int (i64, two's complement via
mod 2^64); the file is a byte list, reading returns the value and the
remaining bytes. -/

/-- to_le_bytes of a w-byte unsigned integer. -/
def natLE : Nat → Nat → List UInt8
  | 0, _ => []
  | w + 1, n => UInt8.ofNat (n % 256) :: natLE w (n / 256)

/-- read_exact of w bytes followed by from_le_bytes. -/
def readLE : Nat → List UInt8 → Option (Nat × List UInt8)
  | 0, bs => some (0, bs)
  | _ + 1, [] => none
  | w + 1, b :: bs =>
      match readLE w bs with
      | some (n, rest) => some (b.toNat + 256 * n, rest)
      | none => none

/-- i64 as its two's-complement bit pattern. -/
def toTwos64 (i : Int) : Nat := (i % ((2 : Int) ^ 64)).toNat

/-- i64::from_le_bytes' value from the bit pattern. -/
def fromTwos64 (n : Nat) : Int :=
  if n < 2 ^ 63 then (n : Int) else (n : Int) - 2 ^ 64

/-- One round of the reflected CRC-32 bit loop (polynomial 0xEDB88320). -/
def crc32Step1 (c : Nat) : Nat :=
  if c % 2 = 1 then (c / 2) ^^^ 0xEDB88320 else c / 2

/-- k rounds of the bit loop. -/
def crc32Bits : Nat → Nat → Nat
  | 0, c => c
  | k + 1, c => crc32Bits k (crc32Step1 c)

/-- Fold one byte into the running CRC. -/
def crc32Byte (c : Nat) (b : UInt8) : Nat := crc32Bits 8 (c ^^^ b.toNat)

/-- crc32fast::hash: IEEE CRC-32, init and final xor 0xFFFFFFFF. -/
def crc32 (data : List UInt8) : Nat :=
  (data.foldl crc32Byte 0xFFFFFFFF) ^^^ 0xFFFFFFFF

/-- PayloadEncoding (src/types.rs). -/
inductive PayloadEncoding where
  | json : PayloadEncoding
  | messagePack : PayloadEncoding
  | raw : PayloadEncoding
deriving Repr, DecidableEq

/-- The encoding byte written at src/records/log.rs lines 191-196. -/
def encByte : PayloadEncoding → UInt8
  | .json => 0
  | .messagePack => 1
  | .raw => 2

/-- A record as framed on disk (src/types.rs Record): record_type is its
UTF-8 bytes. -/
structure RecordB where
  id : Nat
  sequence : Nat
  branch : Nat
  timestamp : Int
  recordType : List UInt8
  payload : List UInt8
  encoding : PayloadEncoding
  causedBy : List Nat
  linkedTo : List Nat
deriving Repr, DecidableEq

/-- RecordLog::write_record (src/records/log.rs lines 163-220): magic
"REC\0", version 1, flags 0, three u64s, the i64 timestamp, length-prefixed
type, encoding byte, length-prefixed payload, the two id lists, and the
CRC-32 of the payload. -/
def writeRecord (r : RecordB) : List UInt8 :=
  [82, 69, 67, 0] ++ [1] ++ [0] ++
  natLE 8 r.id ++ natLE 8 r.sequence ++ natLE 8 r.branch ++
  natLE 8 (toTwos64 r.timestamp) ++
  natLE 2 r.recordType.length ++ r.recordType ++
  [encByte r.encoding] ++
  natLE 4 r.payload.length ++ r.payload ++
  natLE 2 r.causedBy.length ++ (r.causedBy.map (natLE 8)).flatten ++
  natLE 2 r.linkedTo.length ++ (r.linkedTo.map (natLE 8)).flatten ++
  natLE 4 (crc32 r.payload)

/-- read_exact of n raw bytes; missing bytes are an io error. -/
def rdBytes : Nat → List UInt8 → Except StoreError (List UInt8 × List UInt8)
  | 0, bs => .ok ([], bs)
  | _ + 1, [] => .error .io
  | n + 1, b :: bs =>
      match rdBytes n bs with
      | .ok (xs, rest) => .ok (b :: xs, rest)
      | .error e => .error e

/-- read_exact of a w-byte little-endian unsigned integer. -/
def rdN (w : Nat) (bs : List UInt8) : Except StoreError (Nat × List UInt8) :=
  match readLE w bs with
  | some r => .ok r
  | none => .error .io

/-- The caused_by / linked_to read loop: k u64 ids. -/
def rdIds : Nat → List UInt8 → Except StoreError (List Nat × List UInt8)
  | 0, bs => .ok ([], bs)
  | k + 1, bs => do
      let (i, bs1) ← rdN 8 bs
      let (rest, bs2) ← rdIds k bs1
      .ok (i :: rest, bs2)

/-- The encoding byte decoded at src/records/log.rs lines 273-281 (unknown
bytes fall back to Raw). -/
def decodeEnc (n : Nat) : PayloadEncoding :=
  if n = 0 then .json else if n = 1 then .messagePack else .raw

/-- RecordLog::read_record (src/records/log.rs lines 223-336). -/
def readRecord (bs0 : List UInt8) :
    Except StoreError (RecordB × List UInt8) := do
  let (magic, bs1) ← rdBytes 4 bs0
  if magic ≠ [82, 69, 67, 0] then .error .invalidFormat
  else do
  let (ver, bs2) ← rdBytes 1 bs1
  if ver ≠ [1] then .error .invalidFormat
  else do
  let (_flags, bs3) ← rdBytes 1 bs2
  let (id, bs4) ← rdN 8 bs3
  let (seq, bs5) ← rdN 8 bs4
  let (branch, bs6) ← rdN 8 bs5
  let (tsn, bs7) ← rdN 8 bs6
  let (tlen, bs8) ← rdN 2 bs7
  let (typeBytes, bs9) ← rdBytes tlen bs8
  let (encN, bs10) ← rdN 1 bs9
  let (plen, bs11) ← rdN 4 bs10
  let (payload, bs12) ← rdBytes plen bs11
  let (cbn, bs13) ← rdN 2 bs12
  let (causedBy, bs14) ← rdIds cbn bs13
  let (ltn, bs15) ← rdN 2 bs14
  let (linkedTo, bs16) ← rdIds ltn bs15
  let (storedCrc, bs17) ← rdN 4 bs16
  if storedCrc ≠ crc32 payload then
    .error (.checksumMismatch storedCrc (crc32 payload))
  else
    .ok (⟨id, seq, branch, fromTwos64 tsn, typeBytes, payload,
          decodeEnc encN, causedBy, linkedTo⟩, bs17)

/-! ## Round-trip lemmas for the record format -/

theorem exbind_seq {alpha beta : Type} (a : alpha)
    (f : alpha → Except StoreError beta) :
    (Except.ok a : Except StoreError alpha) >>= f = f a := rfl

theorem rdBytesMagic (T : List UInt8) :
    rdBytes 4 (82 :: 69 :: 67 :: 0 :: T) = .ok ([82, 69, 67, 0], T) := rfl

theorem rdBytesOne (b : UInt8) (T : List UInt8) :
    rdBytes 1 (b :: T) = .ok ([b], T) := rfl

theorem rdN1 (b : UInt8) (T : List UInt8) :
    rdN 1 (b :: T) = .ok (b.toNat, T) := rfl

theorem rdBytes_exact : ∀ (xs rest : List UInt8),
    rdBytes xs.length (xs ++ rest) = .ok (xs, rest)
  | [], _ => rfl
  | b :: xs, rest => by
      simp only [List.length_cons, List.cons_append, rdBytes, List.append_eq]
      rw [rdBytes_exact xs rest]

theorem readLE_natLE : ∀ (w n : Nat) (rest : List UInt8),
    readLE w (natLE w n ++ rest) = some (n % 256 ^ w, rest)
  | 0, n, rest => by simp [readLE, natLE, Nat.mod_one]
  | w + 1, n, rest => by
      simp only [natLE, List.cons_append, readLE, List.append_eq]
      rw [readLE_natLE w (n / 256) rest]
      rw [toNat_ofNat_small (Nat.mod_lt n (by norm_num))]
      rw [pow_succ', Nat.mod_mul]

theorem rdN_natLE (w n : Nat) (rest : List UInt8) (h : n < 256 ^ w) :
    rdN w (natLE w n ++ rest) = .ok (n, rest) := by
  rw [rdN, readLE_natLE w n rest, Nat.mod_eq_of_lt h]

theorem rdIds_flatten : ∀ (ids : List Nat) (rest : List UInt8),
    (∀ i ∈ ids, i < 256 ^ 8) →
    rdIds ids.length ((ids.map (natLE 8)).flatten ++ rest) = .ok (ids, rest)
  | [], _, _ => rfl
  | i :: t, rest, h => by
      simp only [List.map_cons, List.flatten_cons, List.length_cons,
        List.append_assoc, rdIds]
      rw [rdN_natLE 8 i _ (h i (List.mem_cons_self i t)), exbind_seq]
      dsimp only
      rw [rdIds_flatten t rest (fun j hj => h j (List.mem_cons_of_mem i hj)),
        exbind_seq]

theorem crc32Step1_lt (c : Nat) (h : c < 2 ^ 32) : crc32Step1 c < 2 ^ 32 := by
  unfold crc32Step1
  split
  · exact Nat.xor_lt_two_pow (by omega) (by norm_num)
  · omega

theorem crc32Bits_lt : ∀ (k c : Nat), c < 2 ^ 32 → crc32Bits k c < 2 ^ 32
  | 0, _, h => h
  | k + 1, c, h => crc32Bits_lt k (crc32Step1 c) (crc32Step1_lt c h)

theorem crc32Byte_lt (c : Nat) (b : UInt8) (h : c < 2 ^ 32) :
    crc32Byte c b < 2 ^ 32 :=
  crc32Bits_lt 8 _ (Nat.xor_lt_two_pow h
    (Nat.lt_of_lt_of_le b.toNat_lt (by norm_num)))

theorem crc32_foldl_lt : ∀ (l : List UInt8) (c : Nat), c < 2 ^ 32 →
    List.foldl crc32Byte c l < 2 ^ 32
  | [], _, h => h
  | b :: t, c, h => crc32_foldl_lt t (crc32Byte c b) (crc32Byte_lt c b h)

theorem crc32_lt (data : List UInt8) : crc32 data < 2 ^ 32 :=
  Nat.xor_lt_two_pow (crc32_foldl_lt data 0xFFFFFFFF (by norm_num))
    (by norm_num)

theorem toTwos64_lt (i : Int) : toTwos64 i < 2 ^ 64 := by
  unfold toTwos64
  omega

theorem fromTwos64_toTwos64 (i : Int) (h1 : -(2 ^ 63) ≤ i) (h2 : i < 2 ^ 63) :
    fromTwos64 (toTwos64 i) = i := by
  unfold fromTwos64 toTwos64
  split <;> omega

theorem decodeEnc_encByte (e : PayloadEncoding) :
    decodeEnc (encByte e).toNat = e := by
  cases e <;> rfl

theorem pow256_8 : (256 : Nat) ^ 8 = 2 ^ 64 := by norm_num
theorem pow256_4 : (256 : Nat) ^ 4 = 2 ^ 32 := by norm_num
theorem pow256_2 : (256 : Nat) ^ 2 = 2 ^ 16 := by norm_num

/-! ## Claim C7 -/

/-- C7: writing a record within the format's field bounds (u64 ids and
sequence, i64 timestamp, u16 type length and link counts, u32 payload
length) and reading back from the written offset returns every field as
written — the read verifies that the stored CRC-32 trailer equals crc32 of
the payload, and the trailer is by construction that checksum. -/
theorem C7_record_roundtrip (r : RecordB) (rest : List UInt8)
    (hid : r.id < 2 ^ 64) (hseq : r.sequence < 2 ^ 64)
    (hbr : r.branch < 2 ^ 64)
    (hts1 : -(2 ^ 63) ≤ r.timestamp) (hts2 : r.timestamp < 2 ^ 63)
    (htl : r.recordType.length < 2 ^ 16) (hpl : r.payload.length < 2 ^ 32)
    (hcb : r.causedBy.length < 2 ^ 16)
    (hcbe : ∀ i ∈ r.causedBy, i < 2 ^ 64)
    (hlt : r.linkedTo.length < 2 ^ 16)
    (hlte : ∀ i ∈ r.linkedTo, i < 2 ^ 64) :
    readRecord (writeRecord r ++ rest) = .ok (r, rest) ∧
    ∃ pre, writeRecord r = pre ++ natLE 4 (crc32 r.payload) := by
  constructor
  · have hid' : r.id < 256 ^ 8 := by rw [pow256_8]; exact hid
    have hseq' : r.sequence < 256 ^ 8 := by rw [pow256_8]; exact hseq
    have hbr' : r.branch < 256 ^ 8 := by rw [pow256_8]; exact hbr
    have htl' : r.recordType.length < 256 ^ 2 := by rw [pow256_2]; exact htl
    have hpl' : r.payload.length < 256 ^ 4 := by rw [pow256_4]; exact hpl
    have hcb' : r.causedBy.length < 256 ^ 2 := by rw [pow256_2]; exact hcb
    have hlt' : r.linkedTo.length < 256 ^ 2 := by rw [pow256_2]; exact hlt
    have hcbe' : ∀ i ∈ r.causedBy, i < 256 ^ 8 := by
      intro i hi; rw [pow256_8]; exact hcbe i hi
    have hlte' : ∀ i ∈ r.linkedTo, i < 256 ^ 8 := by
      intro i hi; rw [pow256_8]; exact hlte i hi
    rw [writeRecord]
    simp only [List.append_assoc, List.cons_append, List.nil_append]
    rw [readRecord]
    rw [rdBytesMagic, exbind_seq]
    dsimp only
    rw [if_neg (by decide)]
    rw [rdBytesOne, exbind_seq]
    dsimp only
    rw [if_neg (by decide)]
    rw [rdBytesOne, exbind_seq]
    dsimp only
    rw [rdN_natLE 8 r.id _ hid', exbind_seq]
    dsimp only
    rw [rdN_natLE 8 r.sequence _ hseq', exbind_seq]
    dsimp only
    rw [rdN_natLE 8 r.branch _ hbr', exbind_seq]
    dsimp only
    rw [rdN_natLE 8 (toTwos64 r.timestamp) _
      (by rw [pow256_8]; exact toTwos64_lt r.timestamp), exbind_seq]
    dsimp only
    rw [rdN_natLE 2 r.recordType.length _ htl', exbind_seq]
    dsimp only
    rw [rdBytes_exact r.recordType _, exbind_seq]
    dsimp only
    rw [rdN1, exbind_seq]
    dsimp only
    rw [rdN_natLE 4 r.payload.length _ hpl', exbind_seq]
    dsimp only
    rw [rdBytes_exact r.payload _, exbind_seq]
    dsimp only
    rw [rdN_natLE 2 r.causedBy.length _ hcb', exbind_seq]
    dsimp only
    rw [rdIds_flatten r.causedBy _ hcbe', exbind_seq]
    dsimp only
    rw [rdN_natLE 2 r.linkedTo.length _ hlt', exbind_seq]
    dsimp only
    rw [rdIds_flatten r.linkedTo _ hlte', exbind_seq]
    dsimp only
    rw [rdN_natLE 4 (crc32 r.payload) _
      (by rw [pow256_4]; exact crc32_lt r.payload), exbind_seq]
    dsimp only
    rw [if_neg (not_not_intro rfl)]
    rw [fromTwos64_toTwos64 r.timestamp hts1 hts2, decodeEnc_encByte]
  · exact ⟨_, rfl⟩

/-- C7 witness: round-trip of a small concrete record. -/
theorem C7_record_roundtrip_witness :
    readRecord (writeRecord ⟨1, 1, 1, 0, strB "a", strB "{}", .json, [], []⟩ ++ []) =
      .ok (⟨1, 1, 1, 0, strB "a", strB "{}", .json, [], []⟩, []) ∧
    ∃ pre, writeRecord ⟨1, 1, 1, 0, strB "a", strB "{}", .json, [], []⟩ =
      pre ++ natLE 4 (crc32 (strB "{}")) :=
  C7_record_roundtrip ⟨1, 1, 1, 0, strB "a", strB "{}", .json, [], []⟩ []
    (by norm_num) (by norm_num) (by norm_num) (by norm_num) (by norm_num)
    (by decide) (by decide) (by decide) (by decide) (by decide) (by decide)

/-! ## Subscriptions (src/subscriptions/manager.rs, src/subscriptions/types.rs)

A bounded crossbeam channel becomes the list of events it buffers plus a
connected flag: try_send is a total function returning whether the event was
accepted — it can refuse, but by construction it cannot block.  Events are
reduced to the fields the claim touches; the HashMap of subscriptions is a
list in iteration order. -/

/-- DropReason (src/subscriptions/types.rs). -/
inductive DropReasonM where
  | bufferOverflow : DropReasonM
  | disconnected : DropReasonM
  | invalidFilter : DropReasonM
  | internalError : DropReasonM
  | unsubscribed : DropReasonM
deriving Repr, DecidableEq

/-- StoreEvent, reduced: a record event keeps the record type its filter
check reads; the other payloads are elided. -/
inductive StoreEv where
  | record (recordType : List UInt8) : StoreEv
  | caughtUp : StoreEv
  | dropped (reason : DropReasonM) : StoreEv
deriving Repr, DecidableEq

/-- A subscription: its filter data (include_records, record_types), its
bounded channel (queue + connected receiver), and the caught_up flag. -/
structure Sub where
  id : Nat
  bufferSize : Nat
  includeRecords : Bool
  recordTypes : Option (List (List UInt8))
  queue : List StoreEv
  connected : Bool
  caughtUp : Bool
deriving Repr, DecidableEq

/-- Subscription::try_send (src/subscriptions/manager.rs lines 29-35): false
on a full or disconnected channel, never blocking. -/
def trySend (s : Sub) (ev : StoreEv) : Bool × Sub :=
  if s.connected = false then (false, s)
  else if s.bufferSize ≤ s.queue.length then (false, s)
  else (true, { s with queue := s.queue ++ [ev] })

/-- Subscription::matches_record (src/subscriptions/manager.rs lines 38-53),
on the record's type. -/
def matchesRecord (s : Sub) (rt : List UInt8) : Bool :=
  s.includeRecords &&
    (match s.recordTypes with
     | some ts => ts.contains rt
     | none => true)

/-- The filter closure broadcast_record passes to broadcast
(src/subscriptions/manager.rs line 159). -/
def floodPred (rt : List UInt8) (s : Sub) : Bool :=
  s.caughtUp && matchesRecord s rt

/-- SubscriptionManager: the subscription map and the id counter. -/
structure Mgr where
  subscriptions : List Sub
  nextId : Nat
deriving Repr, DecidableEq

/-- SubscriptionManager::subscribe (src/subscriptions/manager.rs lines
103-121): fresh id, empty bounded channel, caught_up false. -/
def subscribe (m : Mgr) (bufferSize : Nat) (includeRecords : Bool)
    (recordTypes : Option (List (List UInt8))) : Mgr × Nat :=
  ({ subscriptions := m.subscriptions ++
      [⟨m.nextId, bufferSize, includeRecords, recordTypes, [], true, false⟩],
     nextId := m.nextId + 1 }, m.nextId)

/-- SubscriptionManager::mark_caught_up (src/subscriptions/manager.rs lines
135-145): set the flag, try_send CaughtUp, remove and error if that fails. -/
def markCaughtUp (m : Mgr) (id : Nat) : Except StoreError Unit × Mgr :=
  match m.subscriptions.find? (fun s => s.id = id) with
  | none => (.ok (), m)
  | some s =>
      match trySend { s with caughtUp := true } .caughtUp with
      | (true, s2) =>
          (.ok (),
           { m with subscriptions :=
               m.subscriptions.map (fun x => if x.id = id then s2 else x) })
      | (false, _) =>
          (.error .subscriptionDropped,
           { m with subscriptions :=
               m.subscriptions.filter (fun x => x.id ≠ id) })

/-- SubscriptionManager::broadcast (src/subscriptions/manager.rs lines
230-259): try_send to every matching subscription, then remove the ones
whose send failed, attempting a best-effort Dropped{BufferOverflow} on
each; the removed subscriptions (with that attempt applied to their
channels) are returned alongside. -/
def broadcast (p : Sub → Bool) (ev : StoreEv) (m : Mgr) : Mgr × List Sub :=
  let removedIds :=
    (m.subscriptions.filter (fun s => p s && !(trySend s ev).1)).map Sub.id
  let sent := m.subscriptions.map (fun s => if p s then (trySend s ev).2 else s)
  ({ m with subscriptions :=
      sent.filter (fun s => !(removedIds.contains s.id)) },
   (sent.filter (fun s => removedIds.contains s.id)).map
     (fun s => (trySend s (.dropped .bufferOverflow)).2))

/-- SubscriptionManager::broadcast_record (src/subscriptions/manager.rs
lines 154-160). -/
def broadcastRecord (rt : List UInt8) (m : Mgr) : Mgr × List Sub :=
  broadcast (floodPred rt) (.record rt) m

/-- n record broadcasts in a row with nobody draining any channel. -/
def floodN (rt : List UInt8) : Nat → Mgr → Mgr
  | 0, m => m
  | n + 1, m => floodN rt n (broadcastRecord rt m).1

/-- A map that fixes every element of a list is the identity on it. -/
theorem map_id_of_eq {alpha : Type} (f : alpha → alpha) :
    ∀ (l : List alpha), (∀ x ∈ l, f x = x) → l.map f = l
  | [], _ => rfl
  | x :: t, h => by
      rw [List.map_cons, h x (List.mem_cons_self x t),
        map_id_of_eq f t (fun y hy => h y (List.mem_cons_of_mem x hy))]

/-- find? over an append whose left part has no match. -/
theorem find?_append_none {alpha : Type} (p : alpha → Bool) :
    ∀ (l1 l2 : List alpha), l1.find? p = none →
    (l1 ++ l2).find? p = l2.find? p
  | [], _, _ => rfl
  | x :: t, l2, h => by
      cases hx : p x with
      | true => simp [List.find?, hx] at h
      | false =>
          simp only [List.find?, hx] at h
          rw [List.cons_append]
          simp only [List.find?, hx]
          exact find?_append_none p t l2 h

/-- A broadcast nobody's filter matches changes nothing. -/
theorem broadcast_noMatch (p : Sub → Bool) (ev : StoreEv) (m : Mgr)
    (h : ∀ s ∈ m.subscriptions, p s = false) :
    (broadcast p ev m).1 = m := by
  obtain ⟨subs, nid⟩ := m
  unfold broadcast
  dsimp only at h ⊢
  rw [show subs.filter (fun s => p s && !(trySend s ev).1) = [] from
    List.filter_eq_nil_iff.mpr (fun s hs => by simp [h s hs])]
  rw [map_id_of_eq _ subs (fun s hs => if_neg (by simp [h s hs]))]
  rw [List.filter_eq_self.mpr (fun s _ => by simp)]

/-- Flooding a manager nobody in which matches the record is a no-op. -/
theorem floodN_noMatch (rt : List UInt8) :
    ∀ (n : Nat) (m : Mgr), (∀ s ∈ m.subscriptions, floodPred rt s = false) →
    floodN rt n m = m
  | 0, _, _ => rfl
  | n + 1, m, h => by
      rw [floodN]
      rw [show (broadcastRecord rt m).1 = m from
        broadcast_noMatch (floodPred rt) (.record rt) m h]
      exact floodN_noMatch rt n m h

/-- The pigeonhole step: a connected, caught-up, matching subscription whose
channel nobody drains is removed within bufferSize + 1 - queue.length record
broadcasts, and the others — none matching — are untouched. -/
theorem flood_removes (rt : List UInt8) (others : List Sub) (nid : Nat)
    (hothers : ∀ s ∈ others, floodPred rt s = false) :
    ∀ (n : Nat) (t : Sub),
    (∀ s ∈ others, s.id ≠ t.id) →
    floodPred rt t = true → t.connected = true →
    t.queue.length ≤ t.bufferSize →
    t.bufferSize + 1 - t.queue.length ≤ n →
    floodN rt n ⟨others ++ [t], nid⟩ = ⟨others, nid⟩ := by
  intro n
  induction n with
  | zero =>
    intro t _ _ _ hq hn
    omega
  | succ n ih =>
    intro t hid ht hconn hq hn
    rw [floodN]
    by_cases hfull : t.bufferSize ≤ t.queue.length
    · have hsendF : trySend t (.record rt) = (false, t) := by
        unfold trySend
        rw [hconn]
        rw [if_neg (by simp)]
        rw [if_pos hfull]
      have hstep : (broadcastRecord rt ⟨others ++ [t], nid⟩).1 =
          ⟨others, nid⟩ := by
        unfold broadcastRecord broadcast
        dsimp only
        rw [List.filter_append]
        rw [show others.filter (fun s => floodPred rt s && !(trySend s (.record rt)).1) = [] from
          List.filter_eq_nil_iff.mpr (fun s hs => by simp [hothers s hs])]
        rw [show List.filter (fun s => floodPred rt s && !(trySend s (.record rt)).1) [t] = [t] from by
          simp [List.filter, ht, hsendF]]
        rw [List.nil_append]
        rw [List.map_append]
        rw [show List.map (fun s => if floodPred rt s then (trySend s (.record rt)).2 else s) others = others from
          map_id_of_eq _ others (fun s hs => if_neg (by simp [hothers s hs]))]
        rw [show List.map (fun s => if floodPred rt s then (trySend s (.record rt)).2 else s) [t] = [t] from by
          simp [ht, hsendF]]
        rw [List.filter_append]
        rw [List.filter_eq_self.mpr (fun s hs => by
          simp only [List.map_cons, List.map_nil, List.contains_cons,
            Bool.not_eq_true]
          simp [hid s hs])]
        rw [show List.filter (fun s => !(List.contains (List.map Sub.id [t]) s.id)) [t] = [] from by
          simp [List.filter]]
        rw [List.append_nil]
      rw [hstep]
      exact floodN_noMatch rt n ⟨others, nid⟩ hothers
    · have hsendT : trySend t (.record rt) =
          (true, { t with queue := t.queue ++ [.record rt] }) := by
        unfold trySend
        rw [hconn]
        rw [if_neg (by simp)]
        rw [if_neg hfull]
      have hstep : (broadcastRecord rt ⟨others ++ [t], nid⟩).1 =
          ⟨others ++ [{ t with queue := t.queue ++ [.record rt] }], nid⟩ := by
        unfold broadcastRecord broadcast
        dsimp only
        rw [List.filter_append]
        rw [show others.filter (fun s => floodPred rt s && !(trySend s (.record rt)).1) = [] from
          List.filter_eq_nil_iff.mpr (fun s hs => by simp [hothers s hs])]
        rw [show List.filter (fun s => floodPred rt s && !(trySend s (.record rt)).1) [t] = [] from by
          simp [List.filter, ht, hsendT]]
        rw [List.nil_append]
        rw [List.map_append]
        rw [show List.map (fun s => if floodPred rt s then (trySend s (.record rt)).2 else s) others = others from
          map_id_of_eq _ others (fun s hs => if_neg (by simp [hothers s hs]))]
        rw [show List.map (fun s => if floodPred rt s then (trySend s (.record rt)).2 else s) [t] =
            [{ t with queue := t.queue ++ [.record rt] }] from by
          simp [ht, hsendT]]
        rw [List.filter_eq_self.mpr (fun s _ => by simp)]
      rw [hstep]
      exact ih { t with queue := t.queue ++ [.record rt] }
        (fun s hs => hid s hs) ht hconn
        (by simp only [List.length_append, List.length_cons,
          List.length_nil]; omega)
        (by simp only [List.length_append, List.length_cons,
          List.length_nil]; omega)

/-! ## Claim C9 -/

/-- C9: broadcasting is built on the total try_send — the model's broadcast
is a function, so the writer cannot block — and a slow consumer is evicted:
subscribe a record subscriber with buffer B on any manager whose existing
subscriptions do not match the flooded record type, mark it caught up (the
CaughtUp event takes one buffer slot), then broadcast at least B + 1
matching record events with nobody draining the channel.  The subscription
is removed — at most one failed try_send triggers removal with a best-effort
Dropped\x7bBufferOverflow\x7d attempt on its full channel — and the manager's
subscription list returns exactly to its prior value. -/
theorem C9_slow_consumer (m : Mgr) (B : Nat) (rt : List UInt8) (n : Nat)
    (hB : 1 ≤ B) (hn : B + 1 ≤ n)
    (hfresh : ∀ s ∈ m.subscriptions, s.id < m.nextId)
    (hothers : ∀ s ∈ m.subscriptions, floodPred rt s = false) :
    ∀ m1 sid, subscribe m B true none = (m1, sid) →
    ∀ r m2, markCaughtUp m1 sid = (r, m2) →
    r = .ok () ∧
    (floodN rt n m2).subscriptions = m.subscriptions ∧
    (floodN rt n m2).subscriptions.length = m.subscriptions.length ∧
    ∀ s ∈ (floodN rt n m2).subscriptions, s.id ≠ sid := by
  intro m1 sid hsub r m2 hmark
  rw [subscribe, Prod.mk.injEq] at hsub
  obtain ⟨hm1, hsid⟩ := hsub
  subst hm1
  subst hsid
  have hfind : (m.subscriptions ++
      [(⟨m.nextId, B, true, none, [], true, false⟩ : Sub)]).find?
        (fun s => s.id = m.nextId) =
      some ⟨m.nextId, B, true, none, [], true, false⟩ := by
    rw [find?_append_none _ _ _ (List.find?_eq_none.mpr
      (fun s hs => by simpa using Nat.ne_of_lt (hfresh s hs)))]
    simp [List.find?]
  have hsend : trySend ⟨m.nextId, B, true, none, [], true, true⟩ .caughtUp =
      (true, ⟨m.nextId, B, true, none, [.caughtUp], true, true⟩) := by
    unfold trySend
    rw [if_neg (by simp), if_neg (by simp; omega)]
    exact rfl
  rw [markCaughtUp] at hmark
  rw [hfind] at hmark
  dsimp only at hmark
  rw [hsend] at hmark
  dsimp only at hmark
  rw [Prod.mk.injEq] at hmark
  obtain ⟨hr, hm2⟩ := hmark
  subst hm2
  refine ⟨hr.symm, ?_⟩
  have hmap : (m.subscriptions ++
      [(⟨m.nextId, B, true, none, [], true, false⟩ : Sub)]).map
        (fun x => if x.id = m.nextId then
          ⟨m.nextId, B, true, none, [.caughtUp], true, true⟩ else x) =
      m.subscriptions ++
        [(⟨m.nextId, B, true, none, [.caughtUp], true, true⟩ : Sub)] := by
    rw [List.map_append]
    rw [show List.map (fun x => if x.id = m.nextId then
        (⟨m.nextId, B, true, none, [.caughtUp], true, true⟩ : Sub) else x)
          m.subscriptions = m.subscriptions from
      map_id_of_eq _ _ (fun x hx => if_neg (Nat.ne_of_lt (hfresh x hx)))]
    simp
  have hflood : floodN rt n
      ⟨m.subscriptions ++
        [(⟨m.nextId, B, true, none, [.caughtUp], true, true⟩ : Sub)],
       m.nextId + 1⟩ = ⟨m.subscriptions, m.nextId + 1⟩ :=
    flood_removes rt m.subscriptions (m.nextId + 1) hothers n
      ⟨m.nextId, B, true, none, [.caughtUp], true, true⟩
      (fun s hs => Nat.ne_of_lt (hfresh s hs))
      rfl rfl (by simp; omega) (by simp; omega)
  rw [hmap]
  rw [hflood]
  exact ⟨rfl, rfl, fun s hs => Nat.ne_of_lt (hfresh s hs)⟩

/-- C9 witness: an empty manager, one subscriber with buffer 1, two record
broadcasts: the subscriber is gone and the count is back to zero. -/
theorem C9_slow_consumer_witness :
    Except.ok () = (.ok () : Except StoreError Unit) ∧
    (floodN (strB "evt") 2
      ⟨[⟨1, 1, true, none, [.caughtUp], true, true⟩], 2⟩).subscriptions =
      ([] : List Sub) ∧
    (floodN (strB "evt") 2
      ⟨[⟨1, 1, true, none, [.caughtUp], true, true⟩], 2⟩).subscriptions.length =
      ([] : List Sub).length ∧
    ∀ s ∈ (floodN (strB "evt") 2
      ⟨[⟨1, 1, true, none, [.caughtUp], true, true⟩], 2⟩).subscriptions,
      s.id ≠ 1 :=
  C9_slow_consumer ⟨[], 1⟩ 1 (strB "evt") 2 (by decide) (by decide)
    (by intro s hs; cases hs) (by intro s hs; cases hs)
    ⟨[⟨1, 1, true, none, [], true, false⟩], 2⟩ 1 rfl
    (.ok ()) ⟨[⟨1, 1, true, none, [.caughtUp], true, true⟩], 2⟩ rfl

/-! ## Claim C6: get_state_tail against the full reconstruction -/

/-- The last n elements of a list. -/
def lastN {alpha : Type} (n : Nat) (l : List alpha) : List alpha :=
  l.drop (l.length - n)

/-- A chain record framing an Append payload. -/
def mkAppend (p : Nat × List UInt8) : StateUpdate := ⟨p.1, .append p.2⟩

/-- serde decode of each payload in order (the decodes both walks perform). -/
def decodeVals : List (List UInt8) → Except StoreError (List Json)
  | [] => .ok []
  | v :: t =>
      match decodeValue v with
      | .error e => .error e
      | .ok w =>
          match decodeVals t with
          | .error e => .error e
          | .ok ws => .ok (w :: ws)

theorem decodeVals_append : ∀ (a b : List (List UInt8)) (wa wb : List Json),
    decodeVals a = .ok wa → decodeVals b = .ok wb →
    decodeVals (a ++ b) = .ok (wa ++ wb)
  | [], b, wa, wb, ha, hb => by
      injection ha with ha
      subst ha
      simpa using hb
  | v :: t, b, wa, wb, ha, hb => by
      rw [List.cons_append]
      rw [decodeVals] at ha ⊢
      cases hv : decodeValue v with
      | error e => simp [hv] at ha
      | ok w =>
          rw [hv] at ha
          dsimp only at ha ⊢
          cases ht : decodeVals t with
          | error e => simp [ht] at ha
          | ok ws =>
              rw [ht] at ha
              dsimp only at ha
              injection ha with ha
              subst ha
              rw [decodeVals_append t b ws wb ht hb]
              rfl

theorem decodeVals_reverse : ∀ (l : List (List UInt8)) (ws : List Json),
    decodeVals l = .ok ws → decodeVals l.reverse = .ok ws.reverse
  | [], ws, h => by
      injection h with h
      subst h
      rfl
  | v :: t, ws, h => by
      rw [decodeVals] at h
      cases hv : decodeValue v with
      | error e => simp [hv] at h
      | ok w =>
          rw [hv] at h
          dsimp only at h
          cases ht : decodeVals t with
          | error e => simp [ht] at h
          | ok ws' =>
              rw [ht] at h
              dsimp only at h
              injection h with h
              subst h
              rw [List.reverse_cons, List.reverse_cons]
              exact decodeVals_append t.reverse [v] ws'.reverse [w]
                (decodeVals_reverse t ws' ht) (by rw [decodeVals, hv]; rfl)

/-- Decoding the canonical serialization of an array gives it back. -/
theorem decodeArray_encArr (l : List Json) : decodeArray (encArr l) = .ok l := by
  unfold decodeArray encArr jarr
  rw [jsonDeserialize_serialize]
  dsimp only
  rw [JsonArr.toList_ofList]

/-- The canonical serialization of an array is never the empty byte string. -/
theorem encArr_ne_nil (l : List Json) : (encArr l).isEmpty = false := by
  cases l <;> rfl

theorem stateArray_encArr (l : List Json) : stateArray (encArr l) = .ok l := by
  unfold stateArray
  rw [encArr_ne_nil]
  exact decodeArray_encArr l

/-- getStateChain on a nonempty chain is the fold of its backward walk. -/
theorem getStateChain_ne_nil (chain : List StateUpdate) (hne : chain ≠ []) :
    getStateChain chain =
      (foldOps [] (collectBack chain.reverse false).reverse).bind
        (fun st => .ok (some st)) := by
  obtain ⟨u, rest, rfl⟩ : ∃ u rest, chain = u :: rest := by
    cases chain with
    | nil => exact absurd rfl hne
    | cons u rest => exact ⟨u, rest, rfl⟩
  rfl

theorem reverse_take_reverse {alpha : Type} (l : List alpha) (n : Nat) :
    (l.reverse.take n).reverse = l.drop (l.length - n) := by
  rw [List.take_reverse, List.reverse_reverse]

/-- The chain of the C6 counterexample, as the store itself produces it
under AppendLog\x7bdelta_every 1, full_every 1000\x7d from the user ops
Snapshot "[9]", Append "1", Append "2". -/
def c6chain : List StateUpdate :=
  [⟨1, .snapshot (strB "[9]")⟩, ⟨2, .append (strB "1")⟩,
   ⟨3, .deltaSnapshot (strB "[1]")⟩, ⟨4, .append (strB "2")⟩,
   ⟨5, .deltaSnapshot (strB "[2]")⟩]

/-- C6 counterexample: on the store-produced chain with auto delta
snapshots, get_state_tail(2) returns "[2,2]" — the backward walk drains
DeltaSnapshot "[2]" and then also re-collects the Append "2" that this very
delta snapshot covers — while the fully reconstructed state is "[9,1,2]",
whose last two items are [1,2]. -/
theorem C6_counterexample :
    (runUpdates ⟨1, 1000⟩ initialChainSt
      [.snapshot (strB "[9]"), .append (strB "1"),
       .append (strB "2")]).map ChainStoreSt.chain = .ok c6chain ∧
    (runUpdates ⟨1, 1000⟩ initialChainSt
      [.snapshot (strB "[9]"), .append (strB "1"),
       .append (strB "2")]).map (fun st => getStateTail st 2) =
      .ok (.ok (some (strB "[2,2]"))) ∧
    getStateChain c6chain = .ok (some (strB "[9,1,2]")) ∧
    decodeArray (strB "[9,1,2]") = .ok [.num 9, .num 1, .num 2] ∧
    encArr (lastN 2 [.num 9, .num 1, .num 2]) = strB "[1,2]" ∧
    strB "[2,2]" ≠ strB "[1,2]" :=
  ⟨rfl, rfl, rfl, rfl, rfl, by decide⟩


/-- An Edit or Redact operation — the two kinds whose appearance makes the
tail walk fall back to full reconstruction (src/store.rs lines 552-560). -/
def isEROp (op : StateOperation) : Prop :=
  (∃ i v, op = .edit i v) ∨ (∃ a b, op = .redact a b)

/-- Every update is an Append, an Edit or a Redact: the AppendLog write set
above a snapshot. -/
def sufOk (suf : List StateUpdate) : Prop :=
  ∀ u ∈ suf, (∃ v, u.operation = .append v) ∨ isEROp u.operation

/-- The chains claim C6 holds on: no DeltaSnapshot above the last full
Snapshot.  Either the chain carries a full Snapshot whose payload decodes as
an array and everything above it is Append/Edit/Redact, or the whole chain
is Append/Edit/Redact records (no snapshot of either kind at all). -/
def C6Wf (chain : List StateUpdate) : Prop :=
  (∃ pre s0 sval sArr suf,
    chain = pre ++ ⟨s0, .snapshot sval⟩ :: suf ∧
    decodeArray sval = .ok sArr ∧ sufOk suf) ∨
  sufOk chain

/-- Successful bind splits into a successful step and continuation. -/
theorem bind_ok_inv {alpha beta : Type} (E : Except StoreError alpha)
    (f : alpha → Except StoreError beta) (b : beta)
    (h : E.bind f = .ok b) : ∃ a, E = .ok a ∧ f a = .ok b := by
  cases E with
  | error e => exact absurd h (by simp [Except.bind])
  | ok a => exact ⟨a, rfl, h⟩

/-- Inverting one Append application. -/
theorem applyAppend_inv (st : List UInt8) (v : List UInt8) (m1 : List UInt8)
    (h : applyOperation st (.append v) = .ok m1) :
    ∃ arr w, stateArray st = .ok arr ∧ decodeValue v = .ok w ∧
      m1 = encArr (arr ++ [w]) := by
  have e1 : applyOperation st (.append v) =
      (stateArray st).bind (fun a =>
        (decodeValue v).bind (fun w => Except.ok (encArr (a ++ [w])))) := rfl
  rw [e1] at h
  obtain ⟨arr, harr, h⟩ := bind_ok_inv _ _ _ h
  obtain ⟨w, hw, h⟩ := bind_ok_inv _ _ _ h
  injection h with h
  exact ⟨arr, w, harr, hw, h.symm⟩

/-- Inverting a successful fold of Append operations: the start state is an
array and the result is it with the decoded values appended. -/
theorem foldAppends_inv : ∀ (vs : List (List UInt8)) (mid st : List UInt8),
    vs ≠ [] → foldOps mid (vs.map StateOperation.append) = .ok st →
    ∃ arr ws, stateArray mid = .ok arr ∧ decodeVals vs = .ok ws ∧
      st = encArr (arr ++ ws)
  | [], _, _, hne, _ => absurd rfl hne
  | [v], mid, st, _, h => by
      simp only [List.map_cons, List.map_nil, foldOps, List.foldlM_cons,
        List.foldlM_nil] at h
      obtain ⟨m1, hm1, h⟩ := bind_ok_inv _ _ _ h
      obtain ⟨arr, w, harr, hw, rfl⟩ := applyAppend_inv mid v m1 hm1
      injection h with h
      refine ⟨arr, [w], harr, ?_, h.symm⟩
      rw [decodeVals, hw]
      rfl
  | v :: v2 :: t, mid, st, _, h => by
      simp only [List.map_cons, foldOps, List.foldlM_cons] at h
      obtain ⟨m1, hm1, h⟩ := bind_ok_inv _ _ _ h
      obtain ⟨arr, w, harr, hw, rfl⟩ := applyAppend_inv mid v m1 hm1
      have h2 : foldOps (encArr (arr ++ [w])) ((v2 :: t).map .append) = .ok st := by
        simp only [List.map_cons, foldOps, List.foldlM_cons]
        exact h
      obtain ⟨arr2, ws2, harr2, hws2, hst⟩ :=
        foldAppends_inv (v2 :: t) (encArr (arr ++ [w])) st (by simp) h2
      rw [stateArray_encArr] at harr2
      injection harr2 with harr2
      subst harr2
      refine ⟨arr, w :: ws2, harr, ?_, ?_⟩
      · rw [decodeVals, hw, hws2]
      · rw [hst, List.append_assoc, List.singleton_append]

/-- encArr is injective: its output decodes back. -/
theorem encArr_inj (a b : List Json) (h : encArr a = encArr b) : a = b := by
  have := congrArg decodeArray h
  rw [decodeArray_encArr, decodeArray_encArr] at this
  injection this

/-- A payload that decodes as an array is nonempty, so stateArray agrees. -/
theorem stateArray_of_decodeArray (sval : List UInt8) (sArr : List Json)
    (h : decodeArray sval = .ok sArr) : stateArray sval = .ok sArr := by
  cases sval with
  | nil =>
      rw [show decodeArray [] = Except.error .deserialization from rfl] at h
      exact absurd h (by simp)
  | cons b bs =>
      unfold stateArray
      rw [show (b :: bs).isEmpty = false from rfl]
      exact h

/-- The get_state walk collects a run of Appends and keeps walking. -/
theorem collectBack_appendsPrefix :
    ∀ (rv : List (Nat × List UInt8)) (R : List StateUpdate),
    collectBack (rv.map mkAppend ++ R) false =
      rv.map (fun p => StateOperation.append p.2) ++ collectBack R false
  | [], _ => rfl
  | (s, v) :: rv, R => by
      simp only [List.map_cons, List.cons_append, mkAppend]
      rw [show collectBack (⟨s, .append v⟩ ::
          (rv.map mkAppend ++ R)) false =
          .append v :: collectBack (rv.map mkAppend ++ R) false from rfl]
      rw [collectBack_appendsPrefix rv R]

/-- The tail walk over trailing appends fills up and stops before touching
what lies beyond, whenever n items fit in the appends plus what it already
holds. -/
theorem tailWalk_take :
    ∀ (rv : List (Nat × List UInt8)) (rws acc : List Json) (n : Nat)
      (rest : List StateUpdate),
    decodeVals (rv.map Prod.snd) = .ok rws →
    n ≤ acc.length + rws.length →
    tailWalkRev (rv.map mkAppend ++ rest) n acc =
      .ok (some (acc ++ rws.take (n - acc.length)))
  | [], rws, acc, n, rest, h, hn => by
      injection h with h
      subst h
      rw [List.map_nil, List.nil_append, List.take_nil, List.append_nil]
      simp only [List.length_nil, Nat.add_zero] at hn
      cases rest with
      | nil => rfl
      | cons u R =>
          rw [tailWalkRev, if_pos hn]
  | (s, v) :: rv, rws, acc, n, rest, h, hn => by
      rw [List.map_cons, decodeVals] at h
      cases hv : decodeValue v with
      | error e => simp [hv] at h
      | ok w =>
          rw [hv] at h
          dsimp only at h
          cases ht : decodeVals (rv.map Prod.snd) with
          | error e => simp [ht] at h
          | ok rws' =>
              rw [ht] at h
              dsimp only at h
              injection h with h
              subst h
              rw [List.map_cons, List.cons_append, tailWalkRev]
              by_cases hc : acc.length ≥ n
              · rw [if_pos hc]
                rw [show n - acc.length = 0 from by omega, List.take_zero,
                  List.append_nil]
              · rw [if_neg hc]
                dsimp only [mkAppend]
                rw [hv]
                dsimp only
                rw [tailWalk_take rv rws' (acc ++ [w]) n rest ht
                  (by simp only [List.length_cons] at hn
                      simp only [List.length_append, List.length_cons,
                        List.length_nil, Nat.zero_add]
                      omega)]
                simp only [List.length_append, List.length_cons,
                  List.length_nil, Nat.zero_add]
                rw [show n - acc.length = (n - (acc.length + 1)) + 1 from by
                  omega]
                rw [List.take_succ_cons, List.append_assoc]
                rfl

/-- The tail walk over trailing appends that cannot satisfy n and then meets
an Edit or Redact requests the full-reconstruction fallback. -/
theorem tailWalk_er :
    ∀ (rv : List (Nat × List UInt8)) (rws acc : List Json) (n : Nat)
      (u : StateUpdate) (rest : List StateUpdate),
    decodeVals (rv.map Prod.snd) = .ok rws →
    acc.length + rws.length < n → isEROp u.operation →
    tailWalkRev (rv.map mkAppend ++ u :: rest) n acc = .ok none
  | [], rws, acc, n, u, rest, h, hn, hu => by
      injection h with h
      subst h
      simp only [List.length_nil, Nat.add_zero] at hn
      rw [List.map_nil, List.nil_append, tailWalkRev,
        if_neg (by omega : ¬ acc.length ≥ n)]
      rcases hu with ⟨i, v, hop⟩ | ⟨a, b, hop⟩ <;> rw [hop] <;> rfl
  | (s, v) :: rv, rws, acc, n, u, rest, h, hn, hu => by
      rw [List.map_cons, decodeVals] at h
      cases hv : decodeValue v with
      | error e => simp [hv] at h
      | ok w =>
          rw [hv] at h
          dsimp only at h
          cases ht : decodeVals (rv.map Prod.snd) with
          | error e => simp [ht] at h
          | ok rws' =>
              rw [ht] at h
              dsimp only at h
              injection h with h
              subst h
              rw [List.map_cons, List.cons_append, tailWalkRev,
                if_neg (show ¬ acc.length ≥ n by
                  simp only [List.length_cons] at hn
                  omega)]
              dsimp only [mkAppend]
              rw [hv]
              dsimp only
              exact tailWalk_er rv rws' (acc ++ [w]) n u rest ht
                (by simp only [List.length_cons] at hn
                    simp only [List.length_append, List.length_cons,
                      List.length_nil, Nat.zero_add]
                    omega) hu
  termination_by rv => rv.length

/-- The tail walk over an all-append chain that runs out of records returns
everything it collected. -/
theorem tailWalk_exhaust :
    ∀ (rv : List (Nat × List UInt8)) (rws acc : List Json) (n : Nat),
    decodeVals (rv.map Prod.snd) = .ok rws →
    acc.length + rws.length < n →
    tailWalkRev (rv.map mkAppend) n acc = .ok (some (acc ++ rws))
  | [], rws, acc, n, h, hn => by
      injection h with h
      subst h
      rw [List.map_nil, List.append_nil]
      rfl
  | (s, v) :: rv, rws, acc, n, h, hn => by
      rw [List.map_cons, decodeVals] at h
      cases hv : decodeValue v with
      | error e => simp [hv] at h
      | ok w =>
          rw [hv] at h
          dsimp only at h
          cases ht : decodeVals (rv.map Prod.snd) with
          | error e => simp [ht] at h
          | ok rws' =>
              rw [ht] at h
              dsimp only at h
              injection h with h
              subst h
              rw [List.map_cons, tailWalkRev,
                if_neg (show ¬ acc.length ≥ n by
                  simp only [List.length_cons] at hn
                  omega)]
              dsimp only [mkAppend]
              rw [hv]
              dsimp only
              rw [tailWalk_exhaust rv rws' (acc ++ [w]) n ht
                (by simp only [List.length_cons] at hn
                    simp only [List.length_append, List.length_cons,
                      List.length_nil, Nat.zero_add]
                    omega)]
              rw [List.append_assoc]
              rfl

/-- The tail walk over trailing appends that cannot satisfy n and then meets
a full Snapshot completes from the snapshot's right end. -/
theorem tailWalk_snapBoundary (s0 : Nat) (sval : List UInt8)
    (sArr : List Json) (hsv : decodeArray sval = .ok sArr) :
    ∀ (rv : List (Nat × List UInt8)) (rws acc : List Json) (n : Nat)
      (rest : List StateUpdate),
    decodeVals (rv.map Prod.snd) = .ok rws →
    acc.length + rws.length < n →
    tailWalkRev (rv.map mkAppend ++ ⟨s0, .snapshot sval⟩ :: rest) n acc =
      .ok (some (acc ++ rws ++
        (sArr.drop (sArr.length - (n - acc.length - rws.length))).reverse))
  | [], rws, acc, n, rest, h, hn => by
      injection h with h
      subst h
      simp only [List.length_nil, Nat.add_zero] at hn
      rw [List.map_nil, List.nil_append, tailWalkRev,
        if_neg (by omega : ¬ acc.length ≥ n)]
      dsimp only
      rw [hsv]
      dsimp only
      simp only [List.length_nil, Nat.sub_zero, List.append_nil]
  | (s, v) :: rv, rws, acc, n, rest, h, hn => by
      rw [List.map_cons, decodeVals] at h
      cases hv : decodeValue v with
      | error e => simp [hv] at h
      | ok w =>
          rw [hv] at h
          dsimp only at h
          cases ht : decodeVals (rv.map Prod.snd) with
          | error e => simp [ht] at h
          | ok rws' =>
              rw [ht] at h
              dsimp only at h
              injection h with h
              subst h
              rw [List.map_cons, List.cons_append, tailWalkRev,
                if_neg (show ¬ acc.length ≥ n by
                  simp only [List.length_cons] at hn
                  omega)]
              dsimp only [mkAppend]
              rw [hv]
              dsimp only
              rw [tailWalk_snapBoundary s0 sval sArr hsv rv rws'
                (acc ++ [w]) n rest ht
                (by simp only [List.length_cons] at hn
                    simp only [List.length_append, List.length_cons,
                      List.length_nil, Nat.zero_add]
                    omega)]
              simp only [List.length_append, List.length_cons,
                List.length_nil, Nat.zero_add]
              rw [show n - (acc.length + 1) - rws'.length =
                n - acc.length - (rws'.length + 1) from by omega]
              simp [List.append_assoc]

/-- Inverting the reconstruction of a chain ending in a run of appends: the
overall result is some array state extended by the decoded append values. -/
theorem items_of_appendsTail (A : List StateUpdate)
    (trv : List (Nat × List UInt8)) (items : List Json)
    (hne : trv ≠ [])
    (hst : getStateChain (A ++ trv.map mkAppend) = .ok (some (encArr items))) :
    ∃ mid arr ws,
      foldOps [] (collectBack A.reverse false).reverse = .ok mid ∧
      stateArray mid = .ok arr ∧ decodeVals (trv.map Prod.snd) = .ok ws ∧
      items = arr ++ ws := by
  have hch : (A ++ trv.map mkAppend) ≠ [] := by
    intro hx
    rcases List.append_eq_nil.mp hx with ⟨_, h2⟩
    exact hne (List.map_eq_nil_iff.mp h2)
  rw [getStateChain_ne_nil _ hch] at hst
  obtain ⟨st0, hfold, hret⟩ := bind_ok_inv _ _ _ hst
  injection hret with hret
  injection hret with hret
  subst hret
  rw [List.reverse_append] at hfold
  rw [show (trv.map mkAppend).reverse = trv.reverse.map mkAppend from
    (List.map_reverse _ _).symm] at hfold
  rw [collectBack_appendsPrefix] at hfold
  rw [List.reverse_append] at hfold
  rw [show (trv.reverse.map (fun p => StateOperation.append p.2)).reverse =
      trv.map (fun p => StateOperation.append p.2) from by
    rw [List.map_reverse, List.reverse_reverse]] at hfold
  rw [show trv.map (fun p => StateOperation.append p.2) =
      (trv.map Prod.snd).map StateOperation.append from by
    rw [List.map_map]; rfl] at hfold
  rw [foldOps_append] at hfold
  obtain ⟨mid, hmid, hfold2⟩ := bind_ok_inv _ _ _ hfold
  obtain ⟨arr, ws, harr, hws, hitems⟩ :=
    foldAppends_inv (trv.map Prod.snd) mid (encArr items)
      (fun hx => hne (List.map_eq_nil_iff.mp hx)) hfold2
  exact ⟨mid, arr, ws, hmid, harr, hws, encArr_inj _ _ hitems⟩

/-- Tail algebra: the reversed prefix of the reversed suffix is the last n of
the whole, when n fits in the suffix. -/
theorem tail_take_eq (arr ws : List Json) (n : Nat) (hn : n ≤ ws.length) :
    (ws.reverse.take n).reverse = lastN n (arr ++ ws) := by
  rw [reverse_take_reverse]
  unfold lastN
  rw [List.length_append,
    show arr.length + ws.length - n = arr.length + (ws.length - n) from by
      omega,
    List.drop_append]

/-- Tail algebra: a snapshot remainder before the whole suffix is the last n
of the whole, when n exceeds the suffix. -/
theorem tail_boundary_eq (sArr ws : List Json) (n : Nat)
    (hn : ws.length < n) :
    (ws.reverse ++
      (sArr.drop (sArr.length - (n - ws.length))).reverse).reverse =
      lastN n (sArr ++ ws) := by
  rw [List.reverse_append, List.reverse_reverse, List.reverse_reverse]
  unfold lastN
  rw [List.length_append]
  rw [List.drop_append_of_le_length (by omega)]
  rw [show sArr.length + ws.length - n = sArr.length - (n - ws.length) from by
    omega]

/-- Every Append/Edit/Redact run splits as a (possibly empty) prefix, an
optional last Edit-or-Redact, and the trailing appends. -/
theorem suffix_split (suf : List StateUpdate) (hsuf : sufOk suf) :
    (∃ trv : List (Nat × List UInt8), suf = trv.map mkAppend) ∨
    (∃ (front : List StateUpdate) (u : StateUpdate)
      (trv : List (Nat × List UInt8)),
      suf = front ++ u :: trv.map mkAppend ∧ isEROp u.operation) := by
  induction suf using List.reverseRecOn with
  | nil => exact Or.inl ⟨[], rfl⟩
  | append_singleton l u ih =>
      have hl : sufOk l := fun x hx => hsuf x (List.mem_append_left _ hx)
      have hu := hsuf u (List.mem_append_right _ (List.mem_singleton_self u))
      rcases hu with ⟨v, hop⟩ | hER
      · have hueq : u = mkAppend (u.sequence, v) := by
          obtain ⟨sq, op⟩ := u
          dsimp only at hop
          subst hop
          rfl
        rcases ih hl with ⟨trv, rfl⟩ | ⟨front, u0, trv, rfl, hu0⟩
        · refine Or.inl ⟨trv ++ [(u.sequence, v)], ?_⟩
          rw [List.map_append, List.map_cons, List.map_nil]
          rw [show mkAppend (u.sequence, v) = u from hueq.symm]
        · refine Or.inr ⟨front, u0, trv ++ [(u.sequence, v)], ?_, hu0⟩
          simp only [List.map_append, List.append_assoc, List.cons_append,
            List.map_cons, List.map_nil]
          rw [show mkAppend (u.sequence, v) = u from hueq.symm]
      · exact Or.inr ⟨l, u, [], by rw [List.map_nil], hER⟩

/-- get_state_tail with n = 0 is the empty array (src/store.rs line 497). -/
theorem getStateTailChain_zero (h : StateChainHead)
    (chain : List StateUpdate) :
    getStateTailChain (some h) chain 0 = .ok (some (encArr [])) := by
  unfold getStateTailChain
  dsimp only
  rw [if_pos rfl]

/-- get_state_tail's fast path: n at least item_count falls through to
get_state (src/store.rs lines 500-503). -/
theorem getStateTailChain_fast (h : StateChainHead)
    (chain : List StateUpdate) (n : Nat) (h0 : n ≠ 0)
    (hf : n ≥ h.itemCount) :
    getStateTailChain (some h) chain n = getStateChain chain := by
  unfold getStateTailChain
  dsimp only
  rw [if_neg h0, if_pos hf]

/-- The claim on chains whose trailing appends follow an Edit or Redact: the
walk either fills up inside the appends or meets the Edit/Redact and takes
the full-reconstruction fallback; both give the reconstruction's tail. -/
theorem C6_er (h : StateChainHead) (A0 : List StateUpdate) (u : StateUpdate)
    (trv : List (Nat × List UInt8)) (items : List Json) (n : Nat)
    (hst : getStateChain (A0 ++ u :: trv.map mkAppend) =
      .ok (some (encArr items)))
    (hcnt : items.length ≤ h.itemCount)
    (hu : isEROp u.operation) :
    getStateTailChain (some h) (A0 ++ u :: trv.map mkAppend) n =
      .ok (some (encArr (lastN n items))) := by
  by_cases h0 : n = 0
  · subst h0
    rw [getStateTailChain_zero]
    rw [show lastN 0 items = [] from by
      unfold lastN
      rw [Nat.sub_zero, List.drop_length]]
  · by_cases hfast : n ≥ h.itemCount
    · rw [getStateTailChain_fast h _ n h0 hfast, hst]
      rw [show lastN n items = items from by
        unfold lastN
        rw [show items.length - n = 0 from by omega, List.drop_zero]]
    · unfold getStateTailChain
      dsimp only
      rw [if_neg h0, if_neg hfast]
      by_cases htrv : trv = []
      · subst htrv
        rw [show (A0 ++ u :: List.map mkAppend
            ([] : List (Nat × List UInt8))).reverse =
            List.map mkAppend ([] : List (Nat × List UInt8)) ++
              u :: A0.reverse from by simp]
        rw [tailWalk_er [] [] [] n u A0.reverse rfl (by simp; omega) hu]
        dsimp only
        rw [hst]
        dsimp only [Option.getD]
        rw [if_neg (by rw [encArr_ne_nil]; simp)]
        rw [decodeArray_encArr]
        rfl
      · obtain ⟨mid, arr, ws, hmid, harr, hws, hitems⟩ :=
          items_of_appendsTail (A0 ++ [u]) trv items htrv
            (by rw [List.append_assoc]; exact hst)
        have hdecrev : decodeVals (trv.reverse.map Prod.snd) =
            .ok ws.reverse := by
          rw [show trv.reverse.map Prod.snd = (trv.map Prod.snd).reverse from
            by rw [List.map_reverse]]
          exact decodeVals_reverse _ _ hws
        rw [show (A0 ++ u :: trv.map mkAppend).reverse =
            trv.reverse.map mkAppend ++ u :: A0.reverse from by
          simp [List.map_reverse]]
        by_cases hn2 : n ≤ ws.length
        · rw [tailWalk_take trv.reverse ws.reverse [] n (u :: A0.reverse)
            hdecrev (by simp; omega)]
          dsimp only
          simp only [List.nil_append, List.length_nil, Nat.sub_zero]
          rw [tail_take_eq arr ws n hn2, hitems]
        · rw [tailWalk_er trv.reverse ws.reverse [] n u A0.reverse hdecrev
            (by simp; omega) hu]
          dsimp only
          rw [hst]
          dsimp only [Option.getD]
          rw [if_neg (by rw [encArr_ne_nil]; simp)]
          rw [decodeArray_encArr]
          rfl

/-- The claim on all-append chains with no snapshot: the walk fills up or
exhausts the chain, both giving the reconstruction's tail. -/
theorem C6_appendsOnly (h : StateChainHead) (trv : List (Nat × List UInt8))
    (items : List Json) (n : Nat) (htrv : trv ≠ [])
    (hst : getStateChain (trv.map mkAppend) = .ok (some (encArr items)))
    (hcnt : items.length ≤ h.itemCount) :
    getStateTailChain (some h) (trv.map mkAppend) n =
      .ok (some (encArr (lastN n items))) := by
  by_cases h0 : n = 0
  · subst h0
    rw [getStateTailChain_zero]
    rw [show lastN 0 items = [] from by
      unfold lastN
      rw [Nat.sub_zero, List.drop_length]]
  · by_cases hfast : n ≥ h.itemCount
    · rw [getStateTailChain_fast h _ n h0 hfast, hst]
      rw [show lastN n items = items from by
        unfold lastN
        rw [show items.length - n = 0 from by omega, List.drop_zero]]
    · obtain ⟨mid, arr, ws, hmid, harr, hws, hitems⟩ :=
        items_of_appendsTail [] trv items htrv hst
      have hmid0 : ([] : List UInt8) = mid := by
        rw [show foldOps []
            (collectBack ([] : List StateUpdate).reverse false).reverse =
            .ok [] from rfl] at hmid
        exact Except.ok.inj hmid
      subst hmid0
      have harr0 : ([] : List Json) = arr := by
        rw [show stateArray ([] : List UInt8) = .ok [] from rfl] at harr
        exact Except.ok.inj harr
      subst harr0
      rw [List.nil_append] at hitems
      have hdecrev : decodeVals (trv.reverse.map Prod.snd) =
          .ok ws.reverse := by
        rw [show trv.reverse.map Prod.snd = (trv.map Prod.snd).reverse from
          by rw [List.map_reverse]]
        exact decodeVals_reverse _ _ hws
      unfold getStateTailChain
      dsimp only
      rw [if_neg h0, if_neg hfast]
      rw [show (trv.map mkAppend).reverse = trv.reverse.map mkAppend from
        (List.map_reverse _ _).symm]
      by_cases hn2 : n ≤ ws.length
      · rw [show trv.reverse.map mkAppend =
          trv.reverse.map mkAppend ++ [] from (List.append_nil _).symm]
        rw [tailWalk_take trv.reverse ws.reverse [] n [] hdecrev
          (by simp; omega)]
        dsimp only
        simp only [List.nil_append, List.length_nil, Nat.sub_zero]
        rw [tail_take_eq [] ws n hn2, hitems]
        rfl
      · rw [tailWalk_exhaust trv.reverse ws.reverse [] n hdecrev
          (by simp; omega)]
        dsimp only
        simp only [List.nil_append, List.reverse_reverse]
        rw [hitems]
        rw [show lastN n ws = ws from by
          unfold lastN
          rw [show ws.length - n = 0 from by
            rw [hitems] at hcnt
            omega, List.drop_zero]]

/-- The claim on chains that are a full Snapshot plus trailing appends: the
walk fills up inside the appends or completes from the snapshot's right
end. -/
theorem C6_snap_appends (h : StateChainHead) (pre : List StateUpdate)
    (s0 : Nat) (sval : List UInt8) (sArr : List Json)
    (trv : List (Nat × List UInt8)) (items : List Json) (n : Nat)
    (hsv : decodeArray sval = .ok sArr)
    (hst : getStateChain
      (pre ++ ⟨s0, .snapshot sval⟩ :: trv.map mkAppend) =
      .ok (some (encArr items)))
    (hcnt : items.length ≤ h.itemCount) :
    getStateTailChain (some h)
      (pre ++ ⟨s0, .snapshot sval⟩ :: trv.map mkAppend) n =
      .ok (some (encArr (lastN n items))) := by
  by_cases h0 : n = 0
  · subst h0
    rw [getStateTailChain_zero]
    rw [show lastN 0 items = [] from by
      unfold lastN
      rw [Nat.sub_zero, List.drop_length]]
  · by_cases hfast : n ≥ h.itemCount
    · rw [getStateTailChain_fast h _ n h0 hfast, hst]
      rw [show lastN n items = items from by
        unfold lastN
        rw [show items.length - n = 0 from by omega, List.drop_zero]]
    · have key : ∃ ws, decodeVals (trv.map Prod.snd) = .ok ws ∧
          items = sArr ++ ws := by
        by_cases htrv : trv = []
        · subst htrv
          refine ⟨[], rfl, ?_⟩
          rw [getStateChain_ne_nil _ (by simp)] at hst
          obtain ⟨st0, hfold, hret⟩ := bind_ok_inv _ _ _ hst
          injection hret with hret
          injection hret with hret
          subst hret
          rw [show (pre ++ ⟨s0, .snapshot sval⟩ :: List.map mkAppend
              ([] : List (Nat × List UInt8))).reverse =
              ⟨s0, .snapshot sval⟩ :: pre.reverse from by simp] at hfold
          rw [show collectBack (⟨s0, .snapshot sval⟩ :: pre.reverse) false =
            [.snapshot sval] from rfl] at hfold
          rw [show ([StateOperation.snapshot sval]).reverse =
            [StateOperation.snapshot sval] from rfl] at hfold
          rw [show foldOps [] [StateOperation.snapshot sval] = .ok sval from
            rfl] at hfold
          injection hfold with hfold
          rw [hfold, decodeArray_encArr] at hsv
          rw [List.append_nil]
          exact Except.ok.inj hsv
        · obtain ⟨mid, arr, ws, hmid, harr, hws, hitems⟩ :=
            items_of_appendsTail (pre ++ [⟨s0, .snapshot sval⟩]) trv items
              htrv (by rw [List.append_assoc]; exact hst)
          have hmid' : sval = mid := by
            rw [show (pre ++
                [(⟨s0, .snapshot sval⟩ : StateUpdate)]).reverse =
                ⟨s0, .snapshot sval⟩ :: pre.reverse from by simp] at hmid
            rw [show collectBack (⟨s0, .snapshot sval⟩ :: pre.reverse)
              false = [.snapshot sval] from rfl] at hmid
            rw [show ([StateOperation.snapshot sval]).reverse =
              [StateOperation.snapshot sval] from rfl] at hmid
            rw [show foldOps [] [StateOperation.snapshot sval] = .ok sval
              from rfl] at hmid
            exact Except.ok.inj hmid
          subst hmid'
          rw [stateArray_of_decodeArray sval sArr hsv] at harr
          injection harr with harr
          subst harr
          exact ⟨ws, hws, hitems⟩
      obtain ⟨ws, hws, hitems⟩ := key
      have hdecrev : decodeVals (trv.reverse.map Prod.snd) =
          .ok ws.reverse := by
        rw [show trv.reverse.map Prod.snd = (trv.map Prod.snd).reverse from
          by rw [List.map_reverse]]
        exact decodeVals_reverse _ _ hws
      unfold getStateTailChain
      dsimp only
      rw [if_neg h0, if_neg hfast]
      rw [show (pre ++ ⟨s0, .snapshot sval⟩ :: trv.map mkAppend).reverse =
          trv.reverse.map mkAppend ++
            ⟨s0, .snapshot sval⟩ :: pre.reverse from by
        simp [List.map_reverse]]
      by_cases hn2 : n ≤ ws.length
      · rw [tailWalk_take trv.reverse ws.reverse [] n
          (⟨s0, .snapshot sval⟩ :: pre.reverse) hdecrev (by simp; omega)]
        dsimp only
        simp only [List.nil_append, List.length_nil, Nat.sub_zero]
        rw [tail_take_eq sArr ws n hn2, hitems]
      · rw [tailWalk_snapBoundary s0 sval sArr hsv trv.reverse ws.reverse
          [] n pre.reverse hdecrev (by simp; omega)]
        dsimp only
        simp only [List.nil_append, List.length_nil, Nat.sub_zero,
          List.length_reverse]
        rw [tail_boundary_eq sArr ws n (by omega), hitems]

/-- C6 (amended): on every chain with no DeltaSnapshot above its last full
Snapshot — the suffix holding only Append, Edit and Redact records, and the
whole chain holding only those when no Snapshot exists — get_state_tail(n)
returns exactly the last n items of the fully reconstructed state, for every
n, whenever the reconstruction succeeds as an array and the head's
item_count is at least its length.  The walk fills up inside the trailing
appends, completes from the right end of the Snapshot, exhausts a
snapshot-less chain, or meets an Edit/Redact and takes the
full-reconstruction fallback of store.rs lines 564-574 — all four give the
reconstruction's tail.  The claim is false only when an auto-inserted
DeltaSnapshot lies above the last Snapshot: the walk drains its items and
then re-collects the very Append records it covers (see the
counterexample). -/
theorem C6_get_state_tail (h : StateChainHead) (chain : List StateUpdate)
    (items : List Json) (n : Nat)
    (hst : getStateChain chain = .ok (some (encArr items)))
    (hcnt : items.length ≤ h.itemCount)
    (hwf : C6Wf chain) :
    getStateTailChain (some h) chain n =
      .ok (some (encArr (lastN n items))) := by
  have hne : chain ≠ [] := by
    intro hC
    rw [hC, show getStateChain [] = .ok none from rfl] at hst
    exact absurd hst (by simp)
  rcases hwf with ⟨pre, s0, sval, sArr, suf, rfl, hsv, hsuf⟩ | hsuf
  · rcases suffix_split suf hsuf with ⟨trv, rfl⟩ | ⟨front, u, trv, rfl, hu⟩
    · exact C6_snap_appends h pre s0 sval sArr trv items n hsv hst hcnt
    · rw [show pre ++ ⟨s0, .snapshot sval⟩ ::
          (front ++ u :: trv.map mkAppend) =
          (pre ++ ⟨s0, .snapshot sval⟩ :: front) ++
            u :: trv.map mkAppend from by simp] at hst ⊢
      exact C6_er h (pre ++ ⟨s0, .snapshot sval⟩ :: front) u trv items n
        hst hcnt hu
  · rcases suffix_split chain hsuf with ⟨trv, rfl⟩ | ⟨front, u, trv, rfl, hu⟩
    · exact C6_appendsOnly h trv items n
        (fun hx => hne (by rw [hx]; rfl)) hst hcnt
    · exact C6_er h front u trv items n hst hcnt hu

/-- C6 witness: snapshot "[9]" followed by one append "1"; the tail of
length 1 is "[1]". -/
theorem C6_get_state_tail_witness :
    getStateTailChain (some ⟨2, 1, 0, 1⟩)
      [⟨1, .snapshot (strB "[9]")⟩, ⟨2, .append (strB "1")⟩] 1 =
      .ok (some (encArr (lastN 1 [Json.num 9, Json.num 1]))) :=
  C6_get_state_tail ⟨2, 1, 0, 1⟩
    [⟨1, .snapshot (strB "[9]")⟩, ⟨2, .append (strB "1")⟩]
    [.num 9, .num 1] 1 (by rfl) (by decide)
    (Or.inl ⟨[], 1, strB "[9]", [.num 9], [⟨2, .append (strB "1")⟩],
      rfl, by rfl,
      by intro u hu
         rcases List.mem_singleton.mp hu with rfl
         exact Or.inl ⟨strB "1", rfl⟩⟩)

end Chronicle
